import Mathlib

/-!
# Sparse quantization filter of `multiverso/util/quantization_util.h`

A shallow embedding of `SparseFilter<data_type, index_type>` and the properties
of its four member functions `TryCompress`, `DeCompress`, `FilterIn` and
`FilterOut`.

Modelling conventions.

* A `Blob` is its byte content; `Blob::size()` is the length of that list and
  `Blob::size<T>()` is the length divided by `sizeof(T)`.
* `Blob::As<T>(i)` reinterprets the `sizeof(T)` bytes at byte offset
  `i * sizeof(T)`.  Integers are little-endian two's complement.  An access
  at an element position that is not inside the storage is undefined behaviour
  in the source; the embedding stops there with the fault `Fault.outOfRange`
  and says nothing about what a compiled program does next.
* A failing `CHECK` aborts the process; that is the fault `Fault.check`.
* `Blob(size)` builds a zero-initialized blob of `size > 0` bytes; a blob has
  no empty content, and `Blob(0)` fails a `CHECK`.
* `int` is 32 bits and `size_t` is 64 bits.  Loop counters are natural
  numbers: the source's `int` counters do not overflow below `2 ^ 31`
  iterations.  Conversions that store a value into `index_type` truncate it to
  the width of `index_type`.
* The template parameters appear as their two byte widths and as the test
  `std::abs(x) > clip_value`, a function of the bytes of `x`.
-/

namespace multiverso

/-! ## Bytes and machine integers -/

/-- One byte of storage. -/
abbrev Byte := Fin 256

/-- The two ways a call can go wrong: a failing `CHECK`, which aborts, and an
unchecked access outside a blob's elements, which is undefined behaviour. -/
inductive Fault where
  | check
  | outOfRange
  deriving DecidableEq, Repr

deriving instance DecidableEq for Except

/-- The `w` little-endian bytes of `n` modulo `256 ^ w`: what storing the
integer `n` into a `w`-byte integer object leaves in memory. -/
def toBytes : Nat → Nat → List Byte
  | 0, _ => []
  | w + 1, n => ⟨n % 256, Nat.mod_lt _ (by decide)⟩ :: toBytes w (n / 256)

/-- The unsigned integer held by little-endian bytes. -/
def ofBytes : List Byte → Nat
  | [] => 0
  | b :: bs => b.val + 256 * ofBytes bs

/-- Two's complement reading of the unsigned pattern `u` of a `w`-byte
signed integer. -/
def toSigned (w u : Nat) : Int :=
  if u < 2 ^ (8 * w - 1) then (u : Int) else (u : Int) - 2 ^ (8 * w)

/-- The value of `(size_t)-1`. -/
def SIZE_MAX : Nat := 2 ^ 64 - 1

/-- The C++ loop `for (auto i = start; i < start + n; ++i) body(i)`, threading
the state the body updates; a fault in the body ends the loop. -/
def forLoop {σ : Type} (body : Nat → σ → Except Fault σ) : Nat → Nat → σ → Except Fault σ
  | 0, _, s => .ok s
  | n + 1, i, s =>
    match body i s with
    | .error e => .error e
    | .ok s' => forLoop body n (i + 1) s'

/-! ## Blob -/

/-- Modelled from the spec: the raw buffer `Blob` of `multiverso/blob.h`, which
is not among the sources.  It is "a byte-addressable container exposing byte
length, a typed element count for a given element width, and typed get/set
access by element index". -/
abbrev Blob := List Byte

namespace Blob

/-- Modelled from the spec: `Blob(size)`, "constructing a zero-initialized
buffer of a given byte length".  Empty content is "disallowed by the
underlying buffer representation", and the comment in `TryCompress` has it that
"Blob does not support empty content": constructing a blob of size 0 fails a
`CHECK`. -/
def alloc (size : Nat) : Except Fault Blob :=
  if size = 0 then .error .check else .ok (List.replicate size 0)

/-- `Blob::size()`: the byte length. -/
def size (b : Blob) : Nat := b.length

/-- `Blob::size<T>()` for `sizeof(T) = w`: the typed element count. -/
def count (b : Blob) (w : Nat) : Nat := b.length / w

/-- Reading `As<T>(i)` for `sizeof(T) = w`: the `w` bytes at offset `i * w`. -/
def get (b : Blob) (w i : Nat) : Except Fault (List Byte) :=
  if i * w + w ≤ b.length then .ok ((b.drop (i * w)).take w) else .error .outOfRange

/-- Writing `As<T>(i) = v` for `sizeof(T) = w`, where `v` is the `w` bytes of
the stored object. -/
def set (b : Blob) (w i : Nat) (v : List Byte) : Except Fault Blob :=
  if i * w + w ≤ b.length then .ok (b.take (i * w) ++ v ++ b.drop (i * w + w))
  else .error .outOfRange

/-- Writing `As<T>(index) = v` where `index` is a signed integer: the
conversion of a negative `index` to `size_t` is far outside any storage. -/
def setAt (b : Blob) (w : Nat) (index : Int) (v : List Byte) : Except Fault Blob :=
  match index with
  | Int.ofNat i => b.set w i v
  | Int.negSucc _ => .error .outOfRange

/-- Reading `As<T>(i)` for a signed integer type `T` of `w` bytes. -/
def getInt (b : Blob) (w i : Nat) : Except Fault Int :=
  (b.get w i).bind fun x => .ok (toSigned w (ofBytes x))

/-- Writing `As<T>(i) = n` for an integer type `T` of `w` bytes and an
unsigned or non-negative `n` of a wider type: the conversion keeps the low
`w` bytes. -/
def setInt (b : Blob) (w i n : Nat) : Except Fault Blob :=
  b.set w i (toBytes w n)

end Blob

/-! ## SparseFilter -/

/-- An instance of `SparseFilter<data_type, index_type>`: the byte widths of
the two template parameters and the test `std::abs(x) > clip_value` on the
bytes of a `data_type` object `x`. -/
structure SparseFilter where
  sizeof_data_type : Nat
  sizeof_index_type : Nat
  abs_gt_clip_value : List Byte → Bool

/-- `SparseFilter::SparseFilter(double clip)`: the constructor stores the
threshold and does nothing else.  The template arguments fix the two widths
and, with the threshold, the test. -/
def SparseFilter.construct (sizeof_data_type sizeof_index_type : Nat)
    (abs_gt_clip_value : List Byte → Bool) : Except Fault SparseFilter :=
  .ok ⟨sizeof_data_type, sizeof_index_type, abs_gt_clip_value⟩

/-- `SparseFilter::TryCompress`: `.ok none` is `return false`, `.ok (some b)`
is `return true` with `*out_blob = b`. -/
def TryCompress (f : SparseFilter) (in_blob : Blob) : Except Fault (Option Blob) :=
  if f.sizeof_data_type ≠ f.sizeof_index_type then .error .check else
  let data_count := in_blob.count f.sizeof_data_type
  (forLoop (fun i non_zero_count =>
      (in_blob.get f.sizeof_data_type i).bind fun x =>
        .ok (if f.abs_gt_clip_value x then non_zero_count + 1 else non_zero_count))
    data_count 0 0).bind fun non_zero_count =>
  if non_zero_count * 2 ≥ data_count then .ok none
  else if non_zero_count = 0 then
    (Blob.alloc (2 * f.sizeof_data_type)).bind fun result =>
    (result.setInt f.sizeof_index_type 0 0).bind fun result =>
    (in_blob.get f.sizeof_data_type 0).bind fun x =>
    (result.set f.sizeof_data_type 1 x).bind fun result =>
    .ok (some result)
  else
    (Blob.alloc (non_zero_count * 2 * f.sizeof_data_type)).bind fun result =>
    (forLoop (fun i (st : Blob × Nat) =>
        (in_blob.get f.sizeof_data_type i).bind fun x =>
          if f.abs_gt_clip_value x then
            (st.1.setInt f.sizeof_index_type st.2 i).bind fun result =>
            (result.set f.sizeof_data_type (st.2 + 1) x).bind fun result =>
            .ok (result, st.2 + 2)
          else .ok st)
      data_count 0 (result, 0)).bind fun st =>
    if st.2 ≠ non_zero_count * 2 then .error .check
    else .ok (some st.1)

/-- `SparseFilter::DeCompress`.  The second loop `for (i = 0; i < data_count;
i += 2)` runs `(data_count + 1) / 2` times, its `k`-th round with `i = 2 * k`. -/
def DeCompress (f : SparseFilter) (in_blob : Blob) (size : Nat) : Except Fault Blob :=
  if f.sizeof_data_type ≠ f.sizeof_index_type then .error .check else
  if size % f.sizeof_data_type ≠ 0 then .error .check else
  let original_data_count := size / f.sizeof_data_type
  (Blob.alloc size).bind fun result =>
  (forLoop (fun i (result : Blob) =>
      result.setInt f.sizeof_data_type i 0)
    original_data_count 0 result).bind fun result =>
  let data_count := in_blob.count f.sizeof_data_type
  forLoop (fun k (result : Blob) =>
      (in_blob.getInt f.sizeof_index_type (2 * k)).bind fun index =>
      (in_blob.get f.sizeof_data_type (2 * k + 1)).bind fun value =>
      result.setAt f.sizeof_data_type index value)
    ((data_count + 1) / 2) 0 result

/-- `SparseFilter::FilterIn`.  The header `size_blob` is pushed first and
written afterwards through the storage the pushed copy shares, so the state of
the loop is the header and the buffers pushed after it. -/
def FilterIn (f : SparseFilter) (blobs : List Blob) : Except Fault (List Blob) :=
  (Blob.alloc (f.sizeof_index_type * blobs.length)).bind fun size_blob =>
  (forLoop (fun i (st : Blob × List Blob) =>
      match blobs[i]? with
      | none => .error .outOfRange
      | some blob =>
        (TryCompress f blob).bind fun compressed =>
        (st.1.setInt f.sizeof_index_type i
            (if compressed.isSome then blob.size else SIZE_MAX)).bind fun size_blob =>
        .ok (size_blob, st.2 ++ [compressed.getD blob]))
    blobs.length 0 (size_blob, [])).bind fun st =>
  .ok (st.1 :: st.2)

/-- `SparseFilter::FilterOut`.  The header is read with `As<int>`, four bytes
per slot whatever `index_type` is. -/
def FilterOut (f : SparseFilter) (blobs : List Blob) : Except Fault (List Blob) :=
  match blobs with
  | [] => .error .check
  | size_blob :: _ =>
    forLoop (fun i (outputs : List Blob) =>
        (size_blob.getInt 4 (i - 1)).bind fun slot =>
        let is_compressed := slot ≥ 0
        match blobs[i]? with
        | none => .error .outOfRange
        | some blob =>
          let size := if is_compressed then slot.toNat else blob.size
          if is_compressed then
            (DeCompress f blob size).bind fun r => .ok (outputs ++ [r])
          else .ok (outputs ++ [blob]))
      (blobs.length - 1) 1 []

/-! ## Instances of the comparison -/

/-- The test `std::abs(x) > clip_value` for an IEEE 754 binary `data_type` with
`ebits` exponent bits and `mbits` fraction bits (`float`: 8 and 23, `double`:
11 and 52) against the finite threshold `clipNum / 2 ^ clipScale`.  The
comparison is exact: `|x|` is `sig * 2 ^ (ex - bias - mbits)`, an infinity is
above every finite threshold and a NaN compares false. -/
def ieeeAbsGt (ebits mbits : Nat) (clipNum : Int) (clipScale : Nat) (x : List Byte) : Bool :=
  let u := ofBytes x
  let m := u % 2 ^ mbits
  let e := (u / 2 ^ mbits) % 2 ^ ebits
  if e = 2 ^ ebits - 1 then decide (m = 0)
  else
    let sig := if e = 0 then m else 2 ^ mbits + m
    let ex := if e = 0 then 1 else e
    decide (clipNum * 2 ^ (2 ^ (ebits - 1) - 1 + mbits) < ((sig * 2 ^ ex * 2 ^ clipScale : Nat) : Int))

/-- `SparseFilter<float, int32_t>` with threshold `clipNum / 2 ^ clipScale`. -/
def floatFilter (clipNum : Int) (clipScale : Nat) : SparseFilter :=
  ⟨4, 4, ieeeAbsGt 8 23 clipNum clipScale⟩

/-- `SparseFilter<double, int64_t>` with threshold `clipNum / 2 ^ clipScale`. -/
def doubleFilter (clipNum : Int) (clipScale : Nat) : SparseFilter :=
  ⟨8, 8, ieeeAbsGt 11 52 clipNum clipScale⟩

/-- `SparseFilter<int8_t, int8_t>` with the integral threshold `clip`;
`std::abs` is taken after the promotion of the element to `int`. -/
def int8Filter (clip : Int) : SparseFilter :=
  ⟨1, 1, fun x => decide (clip < ((toSigned 1 (ofBytes x)).natAbs : Int))⟩

/-- The bytes of the `float`s or `double`s with the given bit patterns. -/
def ofPatterns (w : Nat) (patterns : List Nat) : Blob :=
  (patterns.map (toBytes w)).flatten

/-- The spec's Example 1: the `float`s `[5.0, 0.01, 0.02, 7.0, 0.01]`. -/
def example1 : Blob :=
  ofPatterns 4 [0x40A00000, 0x3C23D70A, 0x3CA3D70A, 0x40E00000, 0x3C23D70A]

/-- The spec's Example 2: the `float`s `[0.1, 0.1, 0.1]`. -/
def example2 : Blob := ofPatterns 4 [0x3DCCCCCD, 0x3DCCCCCD, 0x3DCCCCCD]

/-- The spec's Example 3: the `float`s `[1.0, 2.0, 3.0, 4.0]`. -/
def example3 : Blob := ofPatterns 4 [0x3F800000, 0x40000000, 0x40400000, 0x40800000]

/-- The `double`s `[2.0, 2.0]`. -/
def doubles0 : Blob := ofPatterns 8 [0x4000000000000000, 0x4000000000000000]

/-- The `double`s `[0.0, 0.0, 0.0]`. -/
def doubles1 : Blob := ofPatterns 8 [0, 0, 0]

/-- The `double`s `[0.0, 5.0]`. -/
def doubles2 : Blob := ofPatterns 8 [0, 0x4014000000000000]

/-- 130 `int8_t` elements, all 0. -/
def zeros130 : Blob := List.replicate 130 0

/-- 130 `int8_t` elements, all 0 but the last, which is 9. -/
def bytes130 : Blob := List.replicate 129 0 ++ [9]

/-- 130 `int8_t` elements, all 0 but those at positions 127 and 129, which
are 9. -/
def bytes130two : Blob := List.replicate 127 0 ++ [9, 0, 9]

/-- The `float`s `[NaN, NaN, NaN, 1.0]`. -/
def nans : Blob := ofPatterns 4 [0x7FC00000, 0x7FC00000, 0x7FC00000, 0x3F800000]

/-- An encoding of the three pairs `(1, 5.0), (1, 7.0), (0, 0.1)` of `float`s. -/
def examplePairs : Blob := ofPatterns 4 [1, 0x40A00000, 1, 0x40E00000, 0, 0x3DCCCCCD]

/-! ## Vocabulary of the specification -/

/-- The element at position `i` of a dense buffer of `w`-byte elements. -/
def elem (w : Nat) (b : Blob) (i : Nat) : List Byte := (b.drop (i * w)).take w

/-- The zero element: `data_type(0)` is all-zero bytes for the integer and the
IEEE types. -/
def zeroElem (w : Nat) : List Byte := List.replicate w 0

/-- The spec's `total`: the element count of the buffer. -/
def total (f : SparseFilter) (b : Blob) : Nat := b.length / f.sizeof_data_type

/-- The positions of the elements above the threshold, ascending. -/
def keptIndices (f : SparseFilter) (b : Blob) : List Nat :=
  (List.range (total f b)).filter fun i => f.abs_gt_clip_value (elem f.sizeof_data_type b i)

/-- The spec's `kept`: how many elements have `|value| > clip`. -/
def kept (f : SparseFilter) (b : Blob) : Nat := (keptIndices f b).length

/-- The packed layout of a list of (index, value) pairs: index then value,
pair after pair. -/
def packPairs (w : Nat) (ps : List (Nat × List Byte)) : Blob :=
  (ps.map fun p => toBytes w p.1 ++ p.2).flatten

/-- The (index, value) pairs `TryCompress` emits when it accepts a buffer. -/
def encodedPairs (f : SparseFilter) (b : Blob) : List (Nat × List Byte) :=
  if kept f b = 0 then [(0, elem f.sizeof_data_type b 0)]
  else (keptIndices f b).map fun i => (i, elem f.sizeof_data_type b i)

/-- The encoding `TryCompress` hands out when it accepts a buffer. -/
def encoding (f : SparseFilter) (b : Blob) : Blob :=
  packPairs f.sizeof_index_type (encodedPairs f b)

/-- The value `FilterIn` stores in the header slot of an item: its byte length
when `TryCompress` accepts it, `(size_t)-1` when not. -/
def slotValue (f : SparseFilter) (b : Blob) : Nat :=
  if kept f b * 2 ≥ total f b then SIZE_MAX else b.length

/-- The buffer `FilterIn` emits for an item: the item itself when `TryCompress`
rejects it, its encoding when not. -/
def outputOf (f : SparseFilter) (b : Blob) : Blob :=
  if kept f b * 2 ≥ total f b then b else encoding f b

/-- The header `FilterIn` emits for a batch: one `index_type` slot per item. -/
def headerOf (f : SparseFilter) (blobs : List Blob) : Blob :=
  (blobs.map fun b => toBytes f.sizeof_index_type (slotValue f b)).flatten

/-- What `FilterOut` pushes for the buffer `buf` whose header slot it reads at
`int` position `k`. -/
def decodeItem (f : SparseFilter) (hdr : Blob) (k : Nat) (buf : Blob) : Except Fault Blob :=
  (hdr.getInt 4 k).bind fun slot =>
    if slot ≥ 0 then DeCompress f buf slot.toNat else .ok buf

/-- The outputs of `FilterOut` for the buffers `bufs` that follow the header,
the first of them at `int` position `k`. -/
def decodeItems (f : SparseFilter) (hdr : Blob) : Nat → List Blob → Except Fault (List Blob)
  | _, [] => .ok []
  | k, buf :: bufs =>
    (decodeItem f hdr k buf).bind fun r =>
    (decodeItems f hdr (k + 1) bufs).bind fun rs => .ok (r :: rs)

/-- The buffer a batch item is meant to come back as after `FilterIn` and
`FilterOut`: the item itself when `TryCompress` rejects it, the decoding of its
encoding into its own byte length when not. -/
def roundTrip (f : SparseFilter) (b : Blob) : Blob :=
  if kept f b * 2 ≥ total f b then b
  else
    match DeCompress f (encoding f b) b.length with
    | .ok r => r
    | .error _ => []

/-- The number of (index, value) pairs of an encoding with an even element
count. -/
def pairCount (f : SparseFilter) (enc : Blob) : Nat := enc.length / f.sizeof_data_type / 2

/-- The index stored in pair `k` of an encoding, read as `index_type`. -/
def pairIndex (f : SparseFilter) (enc : Blob) (k : Nat) : Int :=
  toSigned f.sizeof_index_type (ofBytes (elem f.sizeof_index_type enc (2 * k)))

/-- The value stored in pair `k` of an encoding. -/
def pairValue (f : SparseFilter) (enc : Blob) (k : Nat) : List Byte :=
  elem f.sizeof_data_type enc (2 * k + 1)

/-- The filter's type parameters have one byte width, which is that of an
integer type of at most 64 bits. -/
def SparseFilter.EqualWidth (f : SparseFilter) : Prop :=
  f.sizeof_data_type = f.sizeof_index_type ∧ 0 < f.sizeof_index_type ∧ f.sizeof_index_type ≤ 8

/-- A dense buffer of the filter: its byte length is a multiple of the element
width and, as a non-negative value, fits `index_type`. -/
def SparseFilter.Dense (f : SparseFilter) (b : Blob) : Prop :=
  b.length % f.sizeof_data_type = 0 ∧ b.length < 2 ^ (8 * f.sizeof_index_type - 1)

/-- The byte length of the buffer is a multiple of the element width: the
data model's dense buffer. -/
def SparseFilter.Aligned (f : SparseFilter) (b : Blob) : Prop :=
  b.length % f.sizeof_data_type = 0

/-- Every position of the buffer is a non-negative value of `index_type`:
the element count is at most `2 ^ (8 * sizeof(index_type) - 1)`. -/
def SparseFilter.IndexFits (f : SparseFilter) (b : Blob) : Prop :=
  total f b ≤ 2 ^ (8 * f.sizeof_index_type - 1)

instance (f : SparseFilter) (b : Blob) : Decidable (f.Aligned b) := by
  unfold SparseFilter.Aligned; infer_instance

instance (f : SparseFilter) (b : Blob) : Decidable (f.IndexFits b) := by
  unfold SparseFilter.IndexFits; infer_instance

instance (f : SparseFilter) : Decidable f.EqualWidth := by
  unfold SparseFilter.EqualWidth; infer_instance

instance (f : SparseFilter) (b : Blob) : Decidable (f.Dense b) := by
  unfold SparseFilter.Dense; infer_instance

/-! ## Bytes: lemmas -/

theorem toBytes_length (w n : Nat) : (toBytes w n).length = w := by
  induction w generalizing n with
  | zero => rfl
  | succ w ih => simp [toBytes, ih]

theorem ofBytes_toBytes (w n : Nat) : ofBytes (toBytes w n) = n % 256 ^ w := by
  induction w generalizing n with
  | zero => simp [toBytes, ofBytes, Nat.mod_one]
  | succ w ih =>
    simp only [toBytes, ofBytes, ih]
    rw [pow_succ, Nat.mul_comm (256 ^ w) 256, Nat.mod_mul]

theorem toBytes_zero (w : Nat) : toBytes w 0 = zeroElem w := by
  induction w with
  | zero => rfl
  | succ w ih =>
    simp only [toBytes, Nat.zero_div, ih, zeroElem, List.replicate_succ]
    rfl

theorem pow256 (w : Nat) : 256 ^ w = 2 ^ (8 * w) := by
  rw [pow_mul]; norm_num

theorem toSigned_of_lt {w u : Nat} (h : u < 2 ^ (8 * w - 1)) : toSigned w u = (u : Int) := by
  simp [toSigned, h]

theorem half_lt_pow {w : Nat} (hw : 0 < w) : 2 ^ (8 * w - 1) < 2 ^ (8 * w) :=
  Nat.pow_lt_pow_right (by decide) (by omega)

/-- Reading back a stored non-negative integer that fits the signed type. -/
theorem toSigned_ofBytes_toBytes {w n : Nat} (hw : 0 < w) (h : n < 2 ^ (8 * w - 1)) :
    toSigned w (ofBytes (toBytes w n)) = (n : Int) := by
  have h2 := half_lt_pow hw
  rw [ofBytes_toBytes, pow256, Nat.mod_eq_of_lt (by omega)]
  exact toSigned_of_lt h

/-- Reading back the stored `-1` of `compressed ? blob.size() : -1`. -/
theorem toSigned_ofBytes_SIZE_MAX {w : Nat} (hw : 0 < w) (h8 : w ≤ 8) :
    toSigned w (ofBytes (toBytes w SIZE_MAX)) = -1 := by
  rw [ofBytes_toBytes]
  interval_cases w <;> decide

/-! ## Blob: lemmas -/

theorem mul_succ_le_of_lt {i j w : Nat} (h : i < j) : i * w + w ≤ j * w := by
  have := Nat.mul_le_mul_right w (Nat.succ_le_of_lt h)
  rwa [Nat.succ_mul] at this

theorem lt_count_iff {w i len : Nat} (hw : 0 < w) :
    i < len / w ↔ i * w + w ≤ len := by
  rw [Nat.lt_iff_add_one_le, Nat.le_div_iff_mul_le hw, Nat.succ_mul]

theorem Blob.get_eq {w i : Nat} {b : Blob} (h : i * w + w ≤ b.length) :
    b.get w i = .ok (elem w b i) := by
  simp [Blob.get, h, elem]

theorem elem_length {w i : Nat} {b : Blob} (h : i * w + w ≤ b.length) :
    (elem w b i).length = w := by
  simp [elem]; omega

theorem Blob.set_eq {w i : Nat} {b : Blob} (v : List Byte) (h : i * w + w ≤ b.length) :
    b.set w i v = .ok (b.take (i * w) ++ v ++ b.drop (i * w + w)) := by
  simp [Blob.set, h]

theorem Blob.set_length {w i : Nat} {b b' : Blob} {v : List Byte} (hv : v.length = w)
    (h : b.set w i v = .ok b') : b'.length = b.length := by
  unfold Blob.set at h
  split at h
  · cases h
    simp [hv]; omega
  · cases h

theorem Blob.set_bound {w i : Nat} {b b' : Blob} {v : List Byte}
    (h : b.set w i v = .ok b') : i * w + w ≤ b.length := by
  unfold Blob.set at h
  split at h
  · assumption
  · cases h

/-- Reading the element just written. -/
theorem elem_set_same {w i : Nat} {b b' : Blob} {v : List Byte} (hv : v.length = w)
    (h : b.set w i v = .ok b') : elem w b' i = v := by
  have hb := Blob.set_bound h
  rw [Blob.set_eq v hb] at h
  cases h
  have h1 : (b.take (i * w)).length = i * w := by simp; omega
  simp only [elem, List.append_assoc]
  rw [List.drop_append_eq_append_drop, h1, Nat.sub_self, List.drop_zero,
    List.drop_eq_nil_of_le (by omega), List.nil_append, List.take_append_eq_append_take, hv,
    Nat.sub_self, List.take_zero, List.append_nil, List.take_of_length_le (by omega)]

/-- Reading any other element after a write. -/
theorem elem_set_other {w i j : Nat} {b b' : Blob} {v : List Byte} (hv : v.length = w)
    (h : b.set w i v = .ok b') (hij : j ≠ i) : elem w b' j = elem w b j := by
  have hb := Blob.set_bound h
  rw [Blob.set_eq v hb] at h
  cases h
  have h1 : (b.take (i * w)).length = i * w := by simp; omega
  rcases Nat.lt_or_gt_of_ne hij with hlt | hgt
  · have h2 := mul_succ_le_of_lt (w := w) hlt
    apply List.ext_getElem?
    intro n
    simp only [elem, List.append_assoc, List.getElem?_take, List.getElem?_drop]
    by_cases hn : n < w
    · simp only [hn, if_true]
      rw [List.getElem?_append_left (by omega), List.getElem?_take]
      simp; omega
    · simp [hn]
  · have h2 := mul_succ_le_of_lt (w := w) hgt
    apply List.ext_getElem?
    intro n
    simp only [elem, List.getElem?_take, List.getElem?_drop]
    by_cases hn : n < w
    · simp only [hn, if_true]
      rw [List.getElem?_append_right (by simp [hv]; omega), List.getElem?_drop]
      congr 1
      simp [hv]; omega
    · simp [hn]

/-! ## TryCompress in closed form -/

theorem bind_ok {α β : Type} (a : α) (g : α → Except Fault β) :
    (Except.ok a : Except Fault α).bind g = g a := rfl

theorem bind_error {α β : Type} (e : Fault) (g : α → Except Fault β) :
    (Except.error e : Except Fault α).bind g = .error e := rfl

theorem forLoop_zero {σ : Type} (body : Nat → σ → Except Fault σ) (i : Nat) (s : σ) :
    forLoop body 0 i s = .ok s := rfl

theorem forLoop_succ {σ : Type} (body : Nat → σ → Except Fault σ) (n i : Nat) (s : σ) :
    forLoop body (n + 1) i s = (body i s).bind (forLoop body n (i + 1)) := by
  rw [forLoop]
  cases body i s <;> rfl

theorem Blob.set_at_end {w k : Nat} (pre z v : List Byte) (h1 : pre.length = k * w)
    (hz : w ≤ z.length) : Blob.set (pre ++ z) w k v = .ok (pre ++ v ++ z.drop w) := by
  rw [Blob.set_eq v (by simp; omega)]
  rw [List.take_append_eq_append_take, List.drop_append_eq_append_drop, h1]
  simp [List.take_of_length_le, List.drop_eq_nil_of_le, h1]

theorem range'_filter_length_le (p : Nat → Bool) (i n : Nat) :
    ((List.range' i n).filter p).length ≤ n := by
  have := List.length_filter_le p (List.range' i n)
  simpa using this

theorem countLoop_eq (w : Nat) (hw : 0 < w) (p : List Byte → Bool) (b : Blob) :
    ∀ n i c, i + n ≤ b.length / w →
      forLoop (fun i non_zero_count =>
        (b.get w i).bind fun x =>
          .ok (if p x then non_zero_count + 1 else non_zero_count)) n i c
      = .ok (c + ((List.range' i n).filter fun i => p (elem w b i)).length) := by
  intro n
  induction n with
  | zero => intro i c _; simp [forLoop_zero]
  | succ n ih =>
    intro i c h
    have hi : i * w + w ≤ b.length := (lt_count_iff hw).1 (by omega)
    simp only [forLoop_succ, Blob.get_eq hi, bind_ok, List.range'_succ, List.filter_cons]
    rw [ih (i + 1) _ (by omega)]
    by_cases hp : p (elem w b i) <;> simp [hp]; omega

theorem packLoop_eq (w : Nat) (hw : 0 < w) (p : List Byte → Bool) (b : Blob) :
    ∀ n i r ri (pre : List Byte), i + n ≤ b.length / w → pre.length = ri * w →
      ((List.range' i n).filter fun i => p (elem w b i)).length ≤ r →
      forLoop (fun i (st : Blob × Nat) =>
        (b.get w i).bind fun x =>
          if p x then
            (st.1.setInt w st.2 i).bind fun result =>
            (result.set w (st.2 + 1) x).bind fun result =>
            .ok (result, st.2 + 2)
          else .ok st) n i (pre ++ List.replicate (r * 2 * w) 0, ri)
      = .ok (pre ++ packPairs w
              (((List.range' i n).filter fun i => p (elem w b i)).map fun i => (i, elem w b i))
            ++ List.replicate
              ((r - ((List.range' i n).filter fun i => p (elem w b i)).length) * 2 * w) 0,
          ri + 2 * ((List.range' i n).filter fun i => p (elem w b i)).length) := by
  intro n
  induction n with
  | zero => intro i r ri pre _ _ _; simp [forLoop_zero, packPairs]
  | succ n ih =>
    intro i r ri pre h hpre hr
    have hi : i * w + w ≤ b.length := (lt_count_iff hw).1 (by omega)
    simp only [forLoop_succ, Blob.get_eq hi, bind_ok, List.range'_succ, List.filter_cons] at hr ⊢
    by_cases hp : p (elem w b i)
    · simp only [hp, if_true, List.length_cons] at hr ⊢
      obtain ⟨r, rfl⟩ : ∃ r', r = r' + 1 := ⟨r - 1, by omega⟩
      have hz : List.replicate ((r + 1) * 2 * w) (0 : Byte)
          = List.replicate w 0 ++ (List.replicate w 0 ++ List.replicate (r * 2 * w) 0) := by
        simp only [List.append_replicate_replicate]
        congr 1; ring
      have e1 : Blob.setInt (pre ++ List.replicate ((r + 1) * 2 * w) 0) w ri i
          = .ok ((pre ++ toBytes w i) ++ (List.replicate w 0 ++ List.replicate (r * 2 * w) 0)) := by
        rw [Blob.setInt, hz, Blob.set_at_end _ _ _ hpre (by simp)]
        simp
      have e2 : Blob.set ((pre ++ toBytes w i) ++ (List.replicate w 0 ++ List.replicate (r * 2 * w) 0))
            w (ri + 1) (elem w b i)
          = .ok ((pre ++ toBytes w i ++ elem w b i) ++ List.replicate (r * 2 * w) 0) := by
        rw [Blob.set_at_end _ _ _ (by simp [hpre, toBytes_length]; ring) (by simp)]
        simp
      simp only [e1, e2, bind_ok]
      rw [ih (i + 1) r (ri + 2) _ (by omega)
        (by simp [hpre, toBytes_length, elem_length hi]; ring) (by omega)]
      simp [packPairs]
      omega
    · simp only [hp, Bool.false_eq_true, if_false] at hr ⊢
      exact ih (i + 1) r ri pre (by omega) hpre hr

theorem Blob.alloc_pos {size : Nat} (h : 0 < size) :
    Blob.alloc size = .ok (List.replicate size 0) := by
  rw [Blob.alloc, if_neg (by omega)]

theorem Blob.alloc_zero : Blob.alloc 0 = .error .check := rfl

theorem kept_le_total (f : SparseFilter) (b : Blob) : kept f b ≤ total f b := by
  have := List.length_filter_le
    (fun i => f.abs_gt_clip_value (elem f.sizeof_data_type b i)) (List.range (total f b))
  simpa [kept, keptIndices] using this

/-- The closed form of `TryCompress`: it never faults on a filter with equal
widths, rejects when `kept * 2 ≥ total` and otherwise returns `encoding`. -/
theorem TryCompress_eq (f : SparseFilter) (hf : f.EqualWidth) (b : Blob) :
    TryCompress f b
      = .ok (if kept f b * 2 ≥ total f b then none else some (encoding f b)) := by
  obtain ⟨dw, w, p⟩ := f
  obtain ⟨h1, hw, _⟩ := hf
  simp only at h1 hw
  subst h1
  simp only [TryCompress, ne_eq, not_true_eq_false, if_false, Blob.count]
  rw [countLoop_eq dw hw p b _ 0 0 (by omega)]
  simp only [bind_ok, Nat.zero_add, ← List.range_eq_range']
  have hlen : ((List.range (b.length / dw)).filter fun i => p (elem dw b i)).length
      = kept ⟨dw, dw, p⟩ b := rfl
  have htotal : total ⟨dw, dw, p⟩ b = b.length / dw := rfl
  rw [hlen, htotal]
  by_cases hk : kept ⟨dw, dw, p⟩ b * 2 ≥ b.length / dw
  · simp only [hk, if_true]
  · simp only [hk, if_false]
    have htot : 0 < b.length / dw := by omega
    by_cases h0 : kept ⟨dw, dw, p⟩ b = 0
    · simp only [h0, if_true, encoding, encodedPairs, packPairs, List.map_cons, List.map_nil,
        List.flatten_cons, List.flatten_nil, List.append_nil]
      have hi : 0 * dw + dw ≤ b.length := (lt_count_iff hw).1 htot
      have e1 : Blob.setInt (List.replicate (2 * dw) 0) dw 0 0
          = .ok (toBytes dw 0 ++ List.replicate dw 0) := by
        have hz : List.replicate (2 * dw) (0 : Byte)
            = [] ++ (List.replicate dw 0 ++ List.replicate dw 0) := by
          simp only [List.append_replicate_replicate, List.nil_append]
          congr 1; omega
        rw [Blob.setInt, hz, Blob.set_at_end _ _ _ (by simp) (by simp)]
        simp
      have e2 : Blob.set (toBytes dw 0 ++ List.replicate dw 0) dw 1 (elem dw b 0)
          = .ok (toBytes dw 0 ++ elem dw b 0) := by
        rw [Blob.set_at_end _ _ _ (by simp [toBytes_length]) (by simp)]
        simp
      simp only [Blob.alloc_pos (show 0 < 2 * dw by omega), e1, Blob.get_eq hi, e2, bind_ok]
    · simp only [h0, if_false]
      have hpl := packLoop_eq dw hw p b (b.length / dw) 0 (kept ⟨dw, dw, p⟩ b) 0 []
        (by omega) (by simp) (by simp [kept, keptIndices, total, List.range_eq_range'])
      simp only [List.nil_append, Nat.zero_add, ← List.range_eq_range'] at hpl
      have hal : Blob.alloc (kept ⟨dw, dw, p⟩ b * 2 * dw)
          = .ok (List.replicate (kept ⟨dw, dw, p⟩ b * 2 * dw) 0) :=
        Blob.alloc_pos (Nat.mul_pos (Nat.mul_pos (by omega) (by decide)) hw)
      rw [hal, bind_ok, hpl, bind_ok]
      simp only [hlen, Nat.sub_self, Nat.zero_mul, List.replicate_zero, List.append_nil]
      have : 2 * kept ⟨dw, dw, p⟩ b = kept ⟨dw, dw, p⟩ b * 2 := by omega
      simp only [this, ne_eq, not_true_eq_false, if_false, encoding, encodedPairs, h0]
      rfl

/-! ## DeCompress: what the two loops do -/

theorem elem_replicate_zero {w size j : Nat} (h : j * w + w ≤ size) :
    elem w (List.replicate size (0 : Byte)) j = zeroElem w := by
  simp only [elem, zeroElem, List.drop_replicate, List.take_replicate]
  congr 1; omega

theorem zeroLoop_eq (w size : Nat) :
    ∀ n i, (i + n) * w ≤ size →
      forLoop (fun i (result : Blob) => result.setInt w i 0) n i (List.replicate size 0)
        = .ok (List.replicate size 0) := by
  intro n
  induction n with
  | zero => intro i _; rfl
  | succ n ih =>
    intro i h
    have hi : i * w + w ≤ size := by
      have : (i + 1) * w ≤ (i + (n + 1)) * w := Nat.mul_le_mul_right w (by omega)
      rw [Nat.succ_mul] at this; omega
    have e : Blob.setInt (List.replicate size 0) w i 0 = .ok (List.replicate size 0) := by
      rw [Blob.setInt, Blob.set_eq _ (by simpa using hi), toBytes_zero, zeroElem]
      simp only [List.take_replicate, List.drop_replicate, List.append_replicate_replicate]
      congr 2; omega
    rw [forLoop_succ, e, bind_ok]
    exact ih (i + 1) (by rw [show i + 1 + n = i + (n + 1) by omega]; exact h)

theorem Blob.setAt_natCast (b : Blob) (w i : Nat) (v : List Byte) :
    b.setAt w (i : Int) v = b.set w i v := rfl

/-- The decoding loop of `DeCompress`, from pair `k0` on: it neither faults
nor changes the length when the indices are in range, an element no pair
addresses is left as it was, and an addressed element holds the value of the
last pair that addresses it. -/
theorem decodeLoop_spec (w : Nat) (hw : 0 < w) (enc : Blob) (size : Nat) :
    ∀ n k0 (r : Blob), r.length = size → 2 * (k0 + n) ≤ enc.length / w →
      (∀ k, k0 ≤ k → k < k0 + n →
        0 ≤ toSigned w (ofBytes (elem w enc (2 * k))) ∧
        toSigned w (ofBytes (elem w enc (2 * k))) < ((size / w : Nat) : Int)) →
      ∃ r', forLoop (fun k (result : Blob) =>
              (enc.getInt w (2 * k)).bind fun index =>
              (enc.get w (2 * k + 1)).bind fun value =>
              result.setAt w index value) n k0 r = .ok r' ∧
        r'.length = size ∧
        ∀ j, j < size / w →
          ((∀ k, k0 ≤ k → k < k0 + n →
              toSigned w (ofBytes (elem w enc (2 * k))) ≠ (j : Int)) →
            elem w r' j = elem w r j) ∧
          (∀ k, k0 ≤ k → k < k0 + n →
              toSigned w (ofBytes (elem w enc (2 * k))) = (j : Int) →
              (∀ k', k < k' → k' < k0 + n →
                toSigned w (ofBytes (elem w enc (2 * k'))) ≠ (j : Int)) →
            elem w r' j = elem w enc (2 * k + 1)) := by
  intro n
  induction n with
  | zero =>
    intro k0 r hr _ _
    refine ⟨r, rfl, hr, fun j _ => ⟨fun _ => rfl, ?_⟩⟩
    intro k h1 h2
    omega
  | succ n ih =>
    intro k0 r hr hlen hidx
    have hb0 : (2 * k0) * w + w ≤ enc.length := (lt_count_iff hw).1 (by omega)
    have hb1 : (2 * k0 + 1) * w + w ≤ enc.length := (lt_count_iff hw).1 (by omega)
    obtain ⟨hlo, hhi⟩ := hidx k0 (le_refl _) (by omega)
    obtain ⟨i, hi⟩ := Int.eq_ofNat_of_zero_le hlo
    rw [hi] at hhi
    have hi' : i < size / w := by exact_mod_cast hhi
    have hbi : i * w + w ≤ r.length := by rw [hr]; exact (lt_count_iff hw).1 hi'
    have hv : (elem w enc (2 * k0 + 1)).length = w := elem_length hb1
    have hset := Blob.set_eq (elem w enc (2 * k0 + 1)) hbi
    have hr1 : (r.take (i * w) ++ elem w enc (2 * k0 + 1) ++ r.drop (i * w + w)).length = size := by
      rw [Blob.set_length hv hset, hr]
    obtain ⟨r', hloop, hr', hspec⟩ := ih (k0 + 1) _ hr1 (by omega)
      (fun k h1 h2 => hidx k (by omega) (by omega))
    refine ⟨r', ?_, hr', ?_⟩
    · rw [forLoop_succ, Blob.getInt, Blob.get_eq hb0, bind_ok, bind_ok, Blob.get_eq hb1, bind_ok,
        hi, Blob.setAt_natCast, hset, bind_ok]
      exact hloop
    · intro j hj
      obtain ⟨hs1, hs2⟩ := hspec j hj
      constructor
      · intro hno
        rw [hs1 (fun k h1 h2 => hno k (by omega) (by omega))]
        have hne : j ≠ i := by
          intro h
          exact hno k0 (le_refl _) (by omega) (by rw [hi, h])
        exact elem_set_other hv hset hne
      · intro k h1 h2 hk hlast
        rcases Nat.eq_or_lt_of_le h1 with heq | hlt
        · subst heq
          rw [hs1 (fun k' h1' h2' => hlast k' (by omega) (by omega))]
          have hji : j = i := by
            rw [hi] at hk; exact_mod_cast hk.symm
          rw [hji]
          exact elem_set_same hv hset
        · exact hs2 k (by omega) (by omega) hk (fun k' h1' h2' => hlast k' h1' (by omega))

/-- `DeCompress` on an encoding with an even element count and in-range
indices: the result has `size` bytes, an element no pair addresses is zero and
an addressed element holds the value of the last pair that addresses it. -/
theorem DeCompress_spec (f : SparseFilter) (hf : f.EqualWidth) (enc : Blob) (size : Nat)
    (hpos : 0 < size) (hsize : size % f.sizeof_data_type = 0)
    (heven : enc.count f.sizeof_data_type % 2 = 0)
    (hidx : ∀ k, k < pairCount f enc →
      0 ≤ pairIndex f enc k ∧ pairIndex f enc k < ((size / f.sizeof_data_type : Nat) : Int)) :
    ∃ result, DeCompress f enc size = .ok result ∧ result.length = size ∧
      ∀ j, j < size / f.sizeof_data_type →
        ((∀ k, k < pairCount f enc → pairIndex f enc k ≠ (j : Int)) →
          elem f.sizeof_data_type result j = zeroElem f.sizeof_data_type) ∧
        (∀ k, k < pairCount f enc → pairIndex f enc k = (j : Int) →
          (∀ k', k < k' → k' < pairCount f enc → pairIndex f enc k' ≠ (j : Int)) →
          elem f.sizeof_data_type result j = pairValue f enc k) := by
  obtain ⟨dw, w, p⟩ := f
  obtain ⟨h1, hw, _⟩ := hf
  simp only at h1 hw
  subst h1
  simp only [pairCount, pairIndex, pairValue, Blob.count] at *
  have hz := zeroLoop_eq dw size (size / dw) 0 (by simpa using Nat.div_mul_le_self size dw)
  have hn : (enc.length / dw + 1) / 2 = enc.length / dw / 2 := by omega
  obtain ⟨r', hloop, hr', hspec⟩ := decodeLoop_spec dw hw enc size (enc.length / dw / 2) 0
    (List.replicate size 0) (by simp) (by omega)
    (fun k _ h2 => hidx k (by omega))
  refine ⟨r', ?_, hr', ?_⟩
  · simp only [DeCompress, ne_eq, not_true_eq_false, if_false, hsize, Blob.alloc_pos hpos, hz,
      bind_ok, Blob.count, hn]
    exact hloop
  · intro j hj
    obtain ⟨hs1, hs2⟩ := hspec j hj
    constructor
    · intro hno
      rw [hs1 (fun k _ h2 => hno k (by omega))]
      exact elem_replicate_zero ((lt_count_iff hw).1 hj)
    · intro k hk hkj hlast
      exact hs2 k (Nat.zero_le _) (by omega) hkj (fun k' h1' h2' => hlast k' h1' (by omega))

/-! ## The layout of packed pairs -/

theorem elem_append_right {w m : Nat} (pre rest : List Byte) (k : Nat)
    (h : pre.length = m * w) : elem w (pre ++ rest) (m + k) = elem w rest k := by
  simp only [elem]
  rw [List.drop_append_eq_append_drop, List.drop_eq_nil_of_le (by rw [h, Nat.add_mul]; omega),
    List.nil_append, h]
  congr 2
  rw [Nat.add_mul]; omega

theorem elem_append_zero {w : Nat} (v rest : List Byte) (h : v.length = w) :
    elem w (v ++ rest) 0 = v := by
  simp only [elem, Nat.zero_mul, List.drop_zero]
  rw [List.take_append_eq_append_take, List.take_of_length_le (by omega), h, Nat.sub_self]
  simp

theorem packPairs_cons (w : Nat) (p : Nat × List Byte) (ps : List (Nat × List Byte)) :
    packPairs w (p :: ps) = (toBytes w p.1 ++ p.2) ++ packPairs w ps := by
  simp [packPairs]

theorem packPairs_length (w : Nat) (ps : List (Nat × List Byte))
    (hv : ∀ q ∈ ps, q.2.length = w) : (packPairs w ps).length = ps.length * 2 * w := by
  induction ps with
  | nil => simp [packPairs]
  | cons q ps ih =>
    rw [packPairs_cons, List.length_append, List.length_append, toBytes_length,
      hv q (List.mem_cons_self _ _), ih (fun q' hq' => hv q' (List.mem_cons_of_mem _ hq')),
      List.length_cons]
    ring

/-- Pair `k` of a packed encoding is the `k`-th pair: its index at element
`2 * k`, its value at element `2 * k + 1`. -/
theorem packPairs_elem (w : Nat) (ps : List (Nat × List Byte))
    (hv : ∀ q ∈ ps, q.2.length = w) (k : Nat) (hk : k < ps.length) :
    elem w (packPairs w ps) (2 * k) = toBytes w ps[k].1 ∧
    elem w (packPairs w ps) (2 * k + 1) = ps[k].2 := by
  induction ps generalizing k with
  | nil => simp at hk
  | cons q ps ih =>
    have hq := hv q (List.mem_cons_self _ _)
    rw [packPairs_cons]
    cases k with
    | zero =>
      constructor
      · rw [List.append_assoc]
        exact elem_append_zero _ _ (toBytes_length _ _)
      · have := elem_append_right (w := w) (m := 1) (toBytes w q.1) (q.2 ++ packPairs w ps) 0
          (by simp [toBytes_length])
        rw [List.append_assoc]
        simp only [Nat.mul_zero, Nat.zero_add, List.getElem_cons_zero]
        rw [show (1 : Nat) = 1 + 0 from rfl, this]
        exact elem_append_zero _ _ hq
    | succ k =>
      have hlen : (toBytes w q.1 ++ q.2).length = 2 * w := by
        simp [toBytes_length, hq]; omega
      obtain ⟨h1, h2⟩ := ih (fun q' hq' => hv q' (List.mem_cons_of_mem _ hq')) k
        (by simpa using hk)
      constructor
      · rw [show 2 * (k + 1) = 2 + 2 * k by ring, elem_append_right _ _ _ hlen]
        simpa using h1
      · rw [show 2 * (k + 1) + 1 = 2 + (2 * k + 1) by ring, elem_append_right _ _ _ hlen]
        simpa using h2

/-- Decoding a packed list of pairs whose indices are distinct, in range and
representable: the result has `size` bytes, holds each pair's value at its
index and zero at any other position. -/
theorem DeCompress_packPairs (f : SparseFilter) (hf : f.EqualWidth)
    (ps : List (Nat × List Byte)) (size : Nat)
    (hpos : 0 < size) (hsize : size % f.sizeof_data_type = 0)
    (hv : ∀ q ∈ ps, q.2.length = f.sizeof_data_type)
    (hin : ∀ q ∈ ps, q.1 < size / f.sizeof_data_type ∧ q.1 < 2 ^ (8 * f.sizeof_index_type - 1))
    (hnd : (ps.map Prod.fst).Nodup) :
    ∃ result, DeCompress f (packPairs f.sizeof_index_type ps) size = .ok result ∧
      result.length = size ∧
      ∀ j, j < size / f.sizeof_data_type →
        (j ∉ ps.map Prod.fst → elem f.sizeof_data_type result j = zeroElem f.sizeof_data_type) ∧
        (∀ v, (j, v) ∈ ps → elem f.sizeof_data_type result j = v) := by
  have hfw := hf.1
  have hw : 0 < f.sizeof_index_type := hf.2.1
  have hv' : ∀ q ∈ ps, q.2.length = f.sizeof_index_type := fun q hq => by rw [← hfw]; exact hv q hq
  have hlen := packPairs_length f.sizeof_index_type ps hv'
  have hcount : (packPairs f.sizeof_index_type ps).length / f.sizeof_data_type = ps.length * 2 := by
    rw [hlen, hfw, Nat.mul_div_cancel _ hw]
  have hpc : pairCount f (packPairs f.sizeof_index_type ps) = ps.length := by
    rw [pairCount, hcount]; omega
  have hpi : ∀ k (hk : k < ps.length),
      pairIndex f (packPairs f.sizeof_index_type ps) k = (ps[k].1 : Int) := by
    intro k hk
    rw [pairIndex, (packPairs_elem _ ps hv' k hk).1]
    exact toSigned_ofBytes_toBytes hw (hin _ (List.getElem_mem hk)).2
  have hpv : ∀ k (hk : k < ps.length),
      pairValue f (packPairs f.sizeof_index_type ps) k = ps[k].2 := by
    intro k hk
    rw [pairValue, hfw, (packPairs_elem _ ps hv' k hk).2]
  obtain ⟨result, hres, hrl, hspec⟩ := DeCompress_spec f hf (packPairs f.sizeof_index_type ps) size
    hpos hsize (by rw [Blob.count, hcount]; omega)
    (fun k hk => by
      rw [hpc] at hk
      rw [hpi k hk]
      exact ⟨Int.natCast_nonneg _, by exact_mod_cast (hin _ (List.getElem_mem hk)).1⟩)
  refine ⟨result, hres, hrl, fun j hj => ?_⟩
  obtain ⟨hs1, hs2⟩ := hspec j hj
  constructor
  · intro hno
    apply hs1
    intro k hk heq
    rw [hpc] at hk
    rw [hpi k hk] at heq
    apply hno
    have : ps[k].1 = j := by exact_mod_cast heq
    rw [← this]
    exact List.mem_map_of_mem _ (List.getElem_mem hk)
  · intro v hmem
    obtain ⟨k, hk, hkv⟩ := List.getElem_of_mem hmem
    have := hs2 k (by rw [hpc]; exact hk) (by rw [hpi k hk, hkv]) (by
      intro k' hlt hk' heq
      rw [hpc] at hk'
      rw [hpi k' hk'] at heq
      have e1 : ps[k'].1 = j := by exact_mod_cast heq
      have hm' : k' < (ps.map Prod.fst).length := by simpa using hk'
      have hm : k < (ps.map Prod.fst).length := by simpa using hk
      have e2 : (ps.map Prod.fst)[k'] = (ps.map Prod.fst)[k] := by
        simp [e1, hkv]
      have := (List.Nodup.getElem_inj_iff hnd).1 e2
      omega)
    rw [this, hpv k hk, hkv]

/-! ## The kept positions -/

theorem mem_keptIndices (f : SparseFilter) (b : Blob) (i : Nat) :
    i ∈ keptIndices f b ↔
      i < total f b ∧ f.abs_gt_clip_value (elem f.sizeof_data_type b i) = true := by
  simp [keptIndices]

theorem keptIndices_pairwise (f : SparseFilter) (b : Blob) :
    (keptIndices f b).Pairwise (· < ·) :=
  List.Pairwise.filter _ (List.pairwise_lt_range _)

theorem keptIndices_nodup (f : SparseFilter) (b : Blob) : (keptIndices f b).Nodup :=
  List.Nodup.filter _ (List.nodup_range _)

theorem SparseFilter.Dense.aligned {f : SparseFilter} {b : Blob} (hd : f.Dense b) :
    f.Aligned b := hd.1

theorem SparseFilter.Dense.indexFits {f : SparseFilter} {b : Blob} (hd : f.Dense b) :
    f.IndexFits b :=
  le_of_lt (lt_of_le_of_lt (Nat.div_le_self _ _) hd.2)

/-- An accepted buffer has at least one element, hence at least one byte. -/
theorem accepted_length_pos (f : SparseFilter) (b : Blob) (hk : kept f b * 2 < total f b) :
    0 < b.length := by
  have ht : 0 < b.length / f.sizeof_data_type := by unfold total at hk; omega
  exact Nat.pos_of_ne_zero (fun h => by rw [h, Nat.zero_div] at ht; omega)

theorem encodedPairs_value_length (f : SparseFilter) (hf : f.EqualWidth) (b : Blob)
    (hk : kept f b * 2 < total f b) :
    ∀ q ∈ encodedPairs f b, q.2.length = f.sizeof_data_type := by
  have hw : 0 < f.sizeof_data_type := by rw [hf.1]; exact hf.2.1
  intro q hq
  unfold encodedPairs at hq
  split at hq
  · simp only [List.mem_singleton] at hq
    subst hq
    exact elem_length ((lt_count_iff hw).1 (by unfold total at hk; omega))
  · simp only [List.mem_map] at hq
    obtain ⟨i, hi, rfl⟩ := hq
    exact elem_length ((lt_count_iff hw).1 ((mem_keptIndices f b i).1 hi).1)

theorem encodedPairs_index_lt (f : SparseFilter) (b : Blob)
    (hk : kept f b * 2 < total f b) : ∀ q ∈ encodedPairs f b, q.1 < total f b := by
  intro q hq
  unfold encodedPairs at hq
  split at hq
  · simp only [List.mem_singleton] at hq
    subst hq
    simp only; omega
  · simp only [List.mem_map] at hq
    obtain ⟨i, hi, rfl⟩ := hq
    exact ((mem_keptIndices f b i).1 hi).1

theorem encodedPairs_nodup (f : SparseFilter) (b : Blob) :
    ((encodedPairs f b).map Prod.fst).Nodup := by
  unfold encodedPairs
  split
  · simp
  · rw [List.map_map]
    have : (Prod.fst ∘ fun i => (i, elem f.sizeof_data_type b i)) = id := rfl
    rw [this, List.map_id]
    exact keptIndices_nodup f b

/-- Decoding what `TryCompress` emits for an accepted dense buffer: every pair
lands at its own index and every other position is zero. -/
theorem DeCompress_encoding (f : SparseFilter) (hf : f.EqualWidth) (b : Blob)
    (ha : f.Aligned b) (hfit : f.IndexFits b) (hk : kept f b * 2 < total f b) :
    ∃ result, DeCompress f (encoding f b) b.length = .ok result ∧ result.length = b.length ∧
      ∀ j, j < total f b →
        (j ∉ (encodedPairs f b).map Prod.fst →
          elem f.sizeof_data_type result j = zeroElem f.sizeof_data_type) ∧
        (∀ v, (j, v) ∈ encodedPairs f b → elem f.sizeof_data_type result j = v) :=
  DeCompress_packPairs f hf (encodedPairs f b) b.length (accepted_length_pos f b hk) ha
    (encodedPairs_value_length f hf b hk)
    (fun q hq => ⟨encodedPairs_index_lt f b hk q hq,
      lt_of_lt_of_le (encodedPairs_index_lt f b hk q hq) hfit⟩)
    (encodedPairs_nodup f b)

/-- The buffer that comes back from compressing and decompressing `b`: `b`
with every element at or below the threshold zeroed, except that element 0
survives when no element is above the threshold. -/
theorem DeCompress_encoding_elem (f : SparseFilter) (hf : f.EqualWidth) (b : Blob)
    (ha : f.Aligned b) (hfit : f.IndexFits b) (hk : kept f b * 2 < total f b) :
    ∃ result, DeCompress f (encoding f b) b.length = .ok result ∧ result.length = b.length ∧
      (0 < kept f b → ∀ j, j < total f b →
        elem f.sizeof_data_type result j =
          if f.abs_gt_clip_value (elem f.sizeof_data_type b j) then elem f.sizeof_data_type b j
          else zeroElem f.sizeof_data_type) ∧
      (kept f b = 0 →
        elem f.sizeof_data_type result 0 = elem f.sizeof_data_type b 0 ∧
        ∀ j, 0 < j → j < total f b →
          elem f.sizeof_data_type result j = zeroElem f.sizeof_data_type) := by
  obtain ⟨result, hres, hlen, hspec⟩ := DeCompress_encoding f hf b ha hfit hk
  refine ⟨result, hres, hlen, ?_, ?_⟩
  · intro hpos j hj
    obtain ⟨hs1, hs2⟩ := hspec j hj
    have hne : kept f b ≠ 0 := by omega
    by_cases hp : f.abs_gt_clip_value (elem f.sizeof_data_type b j) = true
    · rw [if_pos hp]
      apply hs2
      simp only [encodedPairs, hne, if_false, List.mem_map]
      exact ⟨j, (mem_keptIndices f b j).2 ⟨hj, hp⟩, rfl⟩
    · rw [if_neg hp]
      apply hs1
      simp only [encodedPairs, hne, if_false, List.map_map, List.mem_map, Function.comp]
      rintro ⟨i, hi, rfl⟩
      exact hp ((mem_keptIndices f b i).1 hi).2
  · intro h0
    constructor
    · exact (hspec 0 (by omega)).2 _ (by simp [encodedPairs, h0])
    · intro j hj0 hj
      apply (hspec j hj).1
      simp only [encodedPairs, h0, if_true, List.map_cons, List.map_nil, List.mem_singleton]
      omega

/-! ## FilterIn in closed form -/

theorem filterInLoop_eq (f : SparseFilter) (hf : f.EqualWidth) (blobs : List Blob) :
    ∀ n i (pre : List Byte) (outs : List Blob), i + n = blobs.length →
      pre.length = i * f.sizeof_index_type →
      forLoop (fun i (st : Blob × List Blob) =>
        match blobs[i]? with
        | none => .error .outOfRange
        | some blob =>
          (TryCompress f blob).bind fun compressed =>
          (st.1.setInt f.sizeof_index_type i
              (if compressed.isSome then blob.size else SIZE_MAX)).bind fun size_blob =>
          .ok (size_blob, st.2 ++ [compressed.getD blob]))
        n i (pre ++ List.replicate (n * f.sizeof_index_type) 0, outs)
      = .ok (pre ++ headerOf f (blobs.drop i), outs ++ (blobs.drop i).map (outputOf f)) := by
  intro n
  induction n with
  | zero =>
    intro i pre outs hi _
    have : blobs.drop i = [] := List.drop_eq_nil_of_le (by omega)
    simp [forLoop_zero, this, headerOf]
  | succ n ih =>
    intro i pre outs hi hpre
    have hlt : i < blobs.length := by omega
    have hdrop : blobs.drop i = blobs[i] :: blobs.drop (i + 1) := List.drop_eq_getElem_cons hlt
    have hz : List.replicate ((n + 1) * f.sizeof_index_type) (0 : Byte)
        = List.replicate f.sizeof_index_type 0 ++ List.replicate (n * f.sizeof_index_type) 0 := by
      rw [List.append_replicate_replicate]; congr 1; ring
    rw [forLoop_succ]
    dsimp only
    rw [List.getElem?_eq_getElem hlt]
    dsimp only
    rw [TryCompress_eq f hf blobs[i], bind_ok, Blob.setInt, hz,
      Blob.set_at_end _ _ _ hpre (by simp), bind_ok]
    simp only [List.drop_append_eq_append_drop, List.length_replicate, Nat.sub_self,
      List.drop_zero, List.drop_replicate, List.replicate_zero, List.nil_append, Nat.sub_zero]
    rw [bind_ok, ih (i + 1) _ _ (by omega) (by simp [hpre, toBytes_length]; ring), hdrop]
    by_cases hk : kept f blobs[i] * 2 ≥ total f blobs[i] <;>
      simp [-List.getElem_cons_drop, -List.map_drop, hk, headerOf, slotValue, outputOf, Blob.size]

/-- The closed form of `FilterIn`: the header followed by one buffer per item. -/
theorem FilterIn_eq (f : SparseFilter) (hf : f.EqualWidth) (blobs : List Blob)
    (hne : blobs ≠ []) :
    FilterIn f blobs = .ok (headerOf f blobs :: blobs.map (outputOf f)) := by
  have h := filterInLoop_eq f hf blobs blobs.length 0 [] [] (by omega) (by simp)
  simp only [List.nil_append, List.drop_zero] at h
  have hlen : 0 < blobs.length := List.length_pos.2 hne
  rw [FilterIn, Blob.alloc_pos (Nat.mul_pos hf.2.1 hlen), bind_ok, Nat.mul_comm, h, bind_ok]

/-- On the empty batch `FilterIn` asks for a header of size 0 and fails there. -/
theorem FilterIn_nil (f : SparseFilter) : FilterIn f [] = .error .check := by
  rw [FilterIn, List.length_nil, Nat.mul_zero, Blob.alloc_zero]
  rfl

theorem ne_nil_of_lt_length {α : Type} {l : List α} {i : Nat} (h : i < l.length) : l ≠ [] := by
  intro h0
  rw [h0] at h
  exact Nat.not_lt_zero _ h

/-! ## FilterOut item by item -/

theorem filterOutLoop_eq (f : SparseFilter) (hdr : Blob) (bufs : List Blob) :
    ∀ n k (outs : List Blob), k + n = bufs.length →
      forLoop (fun i (outputs : List Blob) =>
        (hdr.getInt 4 (i - 1)).bind fun slot =>
        let is_compressed := slot ≥ 0
        match (hdr :: bufs)[i]? with
        | none => .error .outOfRange
        | some blob =>
          let size := if is_compressed then slot.toNat else blob.size
          if is_compressed then
            (DeCompress f blob size).bind fun r => .ok (outputs ++ [r])
          else .ok (outputs ++ [blob]))
        n (k + 1) outs
      = (decodeItems f hdr k (bufs.drop k)).bind fun rs => .ok (outs ++ rs) := by
  intro n
  induction n with
  | zero =>
    intro k outs hk
    have : bufs.drop k = [] := List.drop_eq_nil_of_le (by omega)
    simp [forLoop_zero, this, decodeItems, bind_ok]
  | succ n ih =>
    intro k outs hk
    have hlt : k < bufs.length := by omega
    have hdrop : bufs.drop k = bufs[k] :: bufs.drop (k + 1) := List.drop_eq_getElem_cons hlt
    rw [forLoop_succ, hdrop, decodeItems, decodeItem]
    dsimp only
    rw [Nat.add_sub_cancel, List.getElem?_cons_succ, List.getElem?_eq_getElem hlt]
    dsimp only
    cases hget : hdr.getInt 4 k with
    | error e => rfl
    | ok slot =>
      rw [bind_ok, bind_ok]
      by_cases hs : slot ≥ 0
      · simp only [hs, if_true]
        cases hd : DeCompress f bufs[k] slot.toNat with
        | error e => rfl
        | ok r =>
          rw [bind_ok, bind_ok, bind_ok, ih (k + 1) _ (by omega)]
          cases decodeItems f hdr (k + 1) (bufs.drop (k + 1)) with
          | error e => rfl
          | ok rs => simp [bind_ok]
      · simp only [hs, if_false]
        rw [bind_ok, bind_ok, ih (k + 1) _ (by omega)]
        cases decodeItems f hdr (k + 1) (bufs.drop (k + 1)) with
        | error e => rfl
        | ok rs => simp [bind_ok]

/-- `FilterOut` decodes the buffers after the header one by one. -/
theorem FilterOut_eq (f : SparseFilter) (hdr : Blob) (bufs : List Blob) :
    FilterOut f (hdr :: bufs) = decodeItems f hdr 0 bufs := by
  have h := filterOutLoop_eq f hdr bufs bufs.length 0 [] (by omega)
  simp only [List.drop_zero, List.nil_append, Nat.zero_add] at h
  rw [FilterOut]
  simp only [List.length_cons, Nat.add_sub_cancel]
  rw [h]
  cases decodeItems f hdr 0 bufs <;> rfl

/-- The outputs of `decodeItems`, position by position. -/
theorem decodeItems_ok_iff (f : SparseFilter) (hdr : Blob) :
    ∀ (bufs : List Blob) (k : Nat) (outs : List Blob),
      decodeItems f hdr k bufs = .ok outs ↔
        outs.length = bufs.length ∧
        ∀ j (hj : j < bufs.length) (ho : j < outs.length),
          decodeItem f hdr (k + j) bufs[j] = .ok outs[j] := by
  intro bufs
  induction bufs with
  | nil =>
    intro k outs
    simp only [decodeItems, Except.ok.injEq, List.length_nil]
    constructor
    · rintro rfl
      exact ⟨rfl, fun j hj => absurd hj (Nat.not_lt_zero _)⟩
    · rintro ⟨h, _⟩
      exact (List.length_eq_zero.1 h).symm
  | cons b bufs ih =>
    intro k outs
    rw [decodeItems]
    constructor
    · intro h
      cases hb : decodeItem f hdr k b with
      | error e => rw [hb] at h; cases h
      | ok r =>
        rw [hb, bind_ok] at h
        cases hrs : decodeItems f hdr (k + 1) bufs with
        | error e => rw [hrs] at h; cases h
        | ok rs =>
          rw [hrs, bind_ok] at h
          cases h
          obtain ⟨hl, hall⟩ := (ih (k + 1) rs).1 hrs
          refine ⟨by simp [hl], ?_⟩
          intro j hj ho
          cases j with
          | zero => simpa using hb
          | succ j =>
            have := hall j (by simpa using hj) (by simpa using ho)
            simpa [Nat.add_assoc, Nat.add_comm 1 j] using this
    · rintro ⟨hl, hall⟩
      cases outs with
      | nil => simp at hl
      | cons r rs =>
        have h0 := hall 0 (by simp) (by simp)
        simp only [Nat.add_zero, List.getElem_cons_zero] at h0
        have hrs : decodeItems f hdr (k + 1) bufs = .ok rs := by
          apply (ih (k + 1) rs).2
          refine ⟨by simpa using hl, ?_⟩
          intro j hj ho
          have := hall (j + 1) (by simpa using hj) (by simpa using ho)
          simpa [Nat.add_assoc, Nat.add_comm 1 j] using this
        rw [h0, bind_ok, hrs, bind_ok]

/-! ## Header slots -/

theorem elem_flatten (w : Nat) (cs : List (List Byte)) (hc : ∀ c ∈ cs, c.length = w)
    (k : Nat) (hk : k < cs.length) : elem w cs.flatten k = cs[k] := by
  induction cs generalizing k with
  | nil => simp at hk
  | cons c cs ih =>
    have hcl := hc c (List.mem_cons_self _ _)
    rw [List.flatten_cons]
    cases k with
    | zero => simpa using elem_append_zero c cs.flatten hcl
    | succ k =>
      have h1 : elem w (c ++ cs.flatten) (1 + k) = elem w cs.flatten k :=
        elem_append_right (m := 1) c cs.flatten k (by simpa using hcl)
      rw [Nat.add_comm 1 k] at h1
      rw [h1, List.getElem_cons_succ]
      exact ih (fun c' hc' => hc c' (List.mem_cons_of_mem _ hc')) k (by simpa using hk)

theorem headerOf_length (f : SparseFilter) (blobs : List Blob) :
    (headerOf f blobs).length = blobs.length * f.sizeof_index_type := by
  induction blobs with
  | nil => simp [headerOf]
  | cons b bs ih =>
    have : headerOf f (b :: bs) = toBytes f.sizeof_index_type (slotValue f b) ++ headerOf f bs := by
      simp [headerOf]
    rw [this, List.length_append, toBytes_length, ih, List.length_cons]
    ring

/-- Slot `i` of the header `FilterIn` emits holds the bytes of the item's slot
value. -/
theorem headerOf_elem (f : SparseFilter) (blobs : List Blob) (i : Nat) (hi : i < blobs.length) :
    elem f.sizeof_index_type (headerOf f blobs) i
      = toBytes f.sizeof_index_type (slotValue f blobs[i]) := by
  have := elem_flatten f.sizeof_index_type
    (blobs.map fun b => toBytes f.sizeof_index_type (slotValue f b))
    (by simp [toBytes_length]) i (by simpa using hi)
  simpa [headerOf] using this

theorem headerOf_getInt (f : SparseFilter) (blobs : List Blob) (i : Nat) (hi : i < blobs.length) :
    (headerOf f blobs).getInt f.sizeof_index_type i
      = .ok (toSigned f.sizeof_index_type
          (ofBytes (toBytes f.sizeof_index_type (slotValue f blobs[i])))) := by
  have hb : i * f.sizeof_index_type + f.sizeof_index_type ≤ (headerOf f blobs).length := by
    rw [headerOf_length]
    exact mul_succ_le_of_lt hi
  rw [Blob.getInt, Blob.get_eq hb, bind_ok, headerOf_elem f blobs i hi]

/-! ## Lengths after DeCompress -/

theorem forLoop_invariant {σ : Type} (P : σ → Prop) (body : Nat → σ → Except Fault σ)
    (hbody : ∀ i s s', P s → body i s = .ok s' → P s') :
    ∀ n i s s', P s → forLoop body n i s = .ok s' → P s' := by
  intro n
  induction n with
  | zero =>
    intro i s s' hs h
    rw [forLoop_zero] at h
    cases h
    exact hs
  | succ n ih =>
    intro i s s' hs h
    rw [forLoop_succ] at h
    cases hb : body i s with
    | error e => rw [hb] at h; cases h
    | ok s1 =>
      rw [hb, bind_ok] at h
      exact ih (i + 1) s1 s' (hbody i s s1 hs hb) h

theorem Blob.get_length {b : Blob} {w i : Nat} {v : List Byte} (h : b.get w i = .ok v) :
    v.length = w := by
  unfold Blob.get at h
  split at h
  · cases h
    simp; omega
  · cases h

/-- Whatever the encoding, a result of `DeCompress` has `size` bytes. -/
theorem DeCompress_length (f : SparseFilter) (enc : Blob) (size : Nat) (r : Blob)
    (h : DeCompress f enc size = .ok r) : r.length = size := by
  unfold DeCompress at h
  split at h
  · cases h
  split at h
  · cases h
  rename_i hsz
  have hz := zeroLoop_eq f.sizeof_data_type size (size / f.sizeof_data_type) 0
    (by simpa using Nat.div_mul_le_self size f.sizeof_data_type)
  have hpos : 0 < size := by
    rcases Nat.eq_zero_or_pos size with h0 | h0
    · subst h0
      rw [Blob.alloc_zero] at h
      cases h
    · exact h0
  simp only [Blob.alloc_pos hpos, hz, bind_ok] at h
  refine forLoop_invariant (fun (s : Blob) => s.length = size) _ ?_ _ 0 _ r (by simp) h
  intro k s s' hs hb
  cases hi : enc.getInt f.sizeof_index_type (2 * k) with
  | error e => rw [hi] at hb; cases hb
  | ok index =>
    rw [hi, bind_ok] at hb
    cases hv : enc.get f.sizeof_data_type (2 * k + 1) with
    | error e => rw [hv] at hb; cases hb
    | ok value =>
      rw [hv, bind_ok] at hb
      cases index with
      | ofNat i => rw [← hs]; exact Blob.set_length (Blob.get_length hv) hb
      | negSucc i => cases hb

/-! ## The codec: claims C2, C4, C5, C6, C7 -/

set_option maxRecDepth 100000

/-- C2 as the code has it (codec reconstruction law).  For every buffer
`TryCompress` accepts (`kept * 2 < total`) whose byte length is a multiple of
the width and whose positions all fit `index_type`, `DeCompress` applied to
the encoding it returned and to the buffer's byte length yields a buffer with
the original element count; if `kept > 0` it equals the original at every index
where `|value| > clip` and is zero at every other index; if `kept = 0` it is
zero at every index except index 0, which equals the original element 0. -/
theorem DeCompress_TryCompress_reconstruction (f : SparseFilter) (hf : f.EqualWidth)
    (b : Blob) (ha : f.Aligned b) (hfit : f.IndexFits b) (hk : kept f b * 2 < total f b) :
    ∃ enc result, TryCompress f b = .ok (some enc) ∧ DeCompress f enc b.size = .ok result ∧
      result.length = b.length ∧ total f result = total f b ∧
      (0 < kept f b → ∀ j, j < total f b →
        elem f.sizeof_data_type result j =
          if f.abs_gt_clip_value (elem f.sizeof_data_type b j) then elem f.sizeof_data_type b j
          else zeroElem f.sizeof_data_type) ∧
      (kept f b = 0 →
        elem f.sizeof_data_type result 0 = elem f.sizeof_data_type b 0 ∧
        ∀ j, 0 < j → j < total f b →
          elem f.sizeof_data_type result j = zeroElem f.sizeof_data_type) := by
  obtain ⟨result, hres, hlen, h1, h2⟩ := DeCompress_encoding_elem f hf b ha hfit hk
  refine ⟨encoding f b, result, ?_, hres, hlen, by rw [total, total, hlen], h1, h2⟩
  rw [TryCompress_eq f hf b, if_neg (by omega)]

/-- The spec's Examples 1 and 2 under C2: with clip 1.0, `[5.0, 0.01, 0.02, 7.0,
0.01]` decodes to `[5.0, 0, 0, 7.0, 0]` and `[0.1, 0.1, 0.1]` to `[0.1, 0, 0]`. -/
theorem DeCompress_TryCompress_reconstruction_witness :
    ((floatFilter 1 0).EqualWidth ∧ (floatFilter 1 0).Aligned example1 ∧
      (floatFilter 1 0).IndexFits example1 ∧
      kept (floatFilter 1 0) example1 * 2 < total (floatFilter 1 0) example1 ∧
      ∃ enc result, TryCompress (floatFilter 1 0) example1 = .ok (some enc) ∧
        DeCompress (floatFilter 1 0) enc example1.size = .ok result ∧
        result.length = example1.length ∧
        total (floatFilter 1 0) result = total (floatFilter 1 0) example1 ∧
        (0 < kept (floatFilter 1 0) example1 → ∀ j, j < total (floatFilter 1 0) example1 →
          elem 4 result j =
            if ieeeAbsGt 8 23 1 0 (elem 4 example1 j) then elem 4 example1 j else zeroElem 4) ∧
        (kept (floatFilter 1 0) example1 = 0 →
          elem 4 result 0 = elem 4 example1 0 ∧
          ∀ j, 0 < j → j < total (floatFilter 1 0) example1 → elem 4 result j = zeroElem 4)) ∧
    ((TryCompress (floatFilter 1 0) example1).bind
        (fun enc => DeCompress (floatFilter 1 0) (enc.getD []) 20)
      = .ok (ofPatterns 4 [0x40A00000, 0, 0, 0x40E00000, 0])) ∧
    ((TryCompress (floatFilter 1 0) example2).bind
        (fun enc => DeCompress (floatFilter 1 0) (enc.getD []) 12)
      = .ok (ofPatterns 4 [0x3DCCCCCD, 0, 0])) :=
  ⟨⟨by decide, by decide, by decide, by decide,
    DeCompress_TryCompress_reconstruction (floatFilter 1 0) (by decide) example1
      (by decide) (by decide) (by decide)⟩, by decide, by decide⟩

/-- C2 as stated fails.  `SparseFilter<int8_t, int8_t>` with clip 1 on 130
elements of which only the last, 9, is above the threshold: the buffer is
accepted, position 129 is stored in an `int8_t` and reads back as -127, and
`DeCompress` with the byte length 130 makes its write at that index instead of
yielding the buffer with 9 at position 129. -/
theorem DeCompress_TryCompress_reconstruction_counterexample :
    (int8Filter 1).EqualWidth ∧ (int8Filter 1).Aligned bytes130 ∧
    total (int8Filter 1) bytes130 = 130 ∧ kept (int8Filter 1) bytes130 = 1 ∧
    ¬ (int8Filter 1).IndexFits bytes130 ∧
    TryCompress (int8Filter 1) bytes130 = .ok (some [129, 9]) ∧
    pairIndex (int8Filter 1) [129, 9] 0 = -127 ∧
    DeCompress (int8Filter 1) [129, 9] bytes130.size = .error .outOfRange := by
  decide

/-- C4 (density policy).  `TryCompress` returns false exactly when
`kept * 2 ≥ total`, where `total` is the element count and `kept` the number of
elements with `std::abs(x) > clip_value`; it accepts exactly when
`kept * 2 < total`. -/
theorem TryCompress_density_policy (f : SparseFilter) (hf : f.EqualWidth) (b : Blob) :
    (TryCompress f b = .ok none ↔ kept f b * 2 ≥ total f b) ∧
    ((∃ enc, TryCompress f b = .ok (some enc)) ↔ kept f b * 2 < total f b) := by
  rw [TryCompress_eq f hf b]
  by_cases hk : kept f b * 2 ≥ total f b
  · simp [hk]
  · simp only [hk, if_false, iff_false]
    constructor
    · intro h; cases h
    · simp; omega

/-- The policy at clip 1.0 on the `float`s `[1.0, 1.0, 0.0]`: the two elements
with `|value| = clip` are not counted, so `kept = 0` and the buffer is
accepted; on `[1.0, 2.0, 3.0, 4.0]`, `kept = 3` and the buffer is rejected. -/
theorem TryCompress_density_policy_witness :
    (floatFilter 1 0).EqualWidth ∧
    kept (floatFilter 1 0) (ofPatterns 4 [0x3F800000, 0x3F800000, 0]) = 0 ∧
    kept (floatFilter 1 0) example3 = 3 ∧
    ((TryCompress (floatFilter 1 0) (ofPatterns 4 [0x3F800000, 0x3F800000, 0]) = .ok none ↔
        kept (floatFilter 1 0) (ofPatterns 4 [0x3F800000, 0x3F800000, 0]) * 2
          ≥ total (floatFilter 1 0) (ofPatterns 4 [0x3F800000, 0x3F800000, 0])) ∧
      ((∃ enc, TryCompress (floatFilter 1 0) (ofPatterns 4 [0x3F800000, 0x3F800000, 0])
          = .ok (some enc)) ↔
        kept (floatFilter 1 0) (ofPatterns 4 [0x3F800000, 0x3F800000, 0]) * 2
          < total (floatFilter 1 0) (ofPatterns 4 [0x3F800000, 0x3F800000, 0]))) :=
  ⟨by decide, by decide, by decide,
    TryCompress_density_policy (floatFilter 1 0) (by decide) _⟩

theorem pairValue_eq (f : SparseFilter) (hf : f.EqualWidth) (enc : Blob) (k : Nat) :
    pairValue f enc k = elem f.sizeof_index_type enc (2 * k + 1) := by
  rw [pairValue, hf.1]

/-- C5 as the code has it (general-case encoding).  For a buffer with
`0 < kept` and `kept * 2 < total`, `TryCompress` emits exactly the pairs of the
positions `i` with `|buffer[i]| > clip` and of no other position, in strictly
ascending order of `i`, each pair laid out as index then value; the encoding
has exactly `kept` pairs and pair `k` holds the value `buffer[i]` of the `k`-th
such position.  The index of a pair is `i` converted to `index_type`; it reads
back as `i` when all positions of the buffer fit `index_type`. -/
theorem TryCompress_general_encoding (f : SparseFilter) (hf : f.EqualWidth) (b : Blob)
    (h0 : 0 < kept f b) (hk : kept f b * 2 < total f b) :
    ∃ enc, TryCompress f b = .ok (some enc) ∧
      enc = packPairs f.sizeof_index_type
        ((keptIndices f b).map fun i => (i, elem f.sizeof_data_type b i)) ∧
      pairCount f enc = kept f b ∧
      (∀ k (h : k < (keptIndices f b).length),
        pairValue f enc k = elem f.sizeof_data_type b (keptIndices f b)[k] ∧
        pairIndex f enc k
          = toSigned f.sizeof_index_type ((keptIndices f b)[k] % 256 ^ f.sizeof_index_type) ∧
        (f.IndexFits b → pairIndex f enc k = ((keptIndices f b)[k] : Int))) ∧
      (∀ i, i ∈ keptIndices f b ↔
        i < total f b ∧ f.abs_gt_clip_value (elem f.sizeof_data_type b i) = true) ∧
      (keptIndices f b).Pairwise (· < ·) := by
  have hw : 0 < f.sizeof_index_type := hf.2.1
  have hne : kept f b ≠ 0 := by omega
  have henc : encodedPairs f b
      = (keptIndices f b).map fun i => (i, elem f.sizeof_data_type b i) := by
    simp [encodedPairs, hne]
  have hv : ∀ q ∈ (keptIndices f b).map fun i => (i, elem f.sizeof_data_type b i),
      q.2.length = f.sizeof_index_type := by
    rw [← henc, ← hf.1]
    exact encodedPairs_value_length f hf b hk
  have hlen := packPairs_length f.sizeof_index_type _ hv
  refine ⟨_, ?_, rfl, ?_, ?_, mem_keptIndices f b, keptIndices_pairwise f b⟩
  · rw [TryCompress_eq f hf b, if_neg (by omega), encoding, henc]
  · rw [pairCount, hlen, hf.1, Nat.mul_div_cancel _ hw, List.length_map, Nat.mul_div_cancel _
      (by decide : 0 < 2)]
    rfl
  · intro k h
    have hk' : k < ((keptIndices f b).map fun i => (i, elem f.sizeof_data_type b i)).length := by
      simpa using h
    obtain ⟨e1, e2⟩ := packPairs_elem f.sizeof_index_type _ hv k hk'
    have hlt : (keptIndices f b)[k] < total f b :=
      ((mem_keptIndices f b _).1 (List.getElem_mem h)).1
    refine ⟨?_, ?_, ?_⟩
    · rw [pairValue_eq f hf, e2, List.getElem_map]
    · rw [pairIndex, e1, List.getElem_map, ofBytes_toBytes]
    · intro hfit
      rw [pairIndex, e1, List.getElem_map]
      exact toSigned_ofBytes_toBytes hw (lt_of_lt_of_le hlt hfit)

/-- The spec's Example 1 under C5: with clip 1.0, `[5.0, 0.01, 0.02, 7.0,
0.01]` is encoded as the pairs `(0, 5.0), (3, 7.0)`. -/
theorem TryCompress_general_encoding_witness :
    ((floatFilter 1 0).EqualWidth ∧
      0 < kept (floatFilter 1 0) example1 ∧
      kept (floatFilter 1 0) example1 * 2 < total (floatFilter 1 0) example1 ∧
      ∃ enc, TryCompress (floatFilter 1 0) example1 = .ok (some enc) ∧
        enc = packPairs 4 ((keptIndices (floatFilter 1 0) example1).map
          fun i => (i, elem 4 example1 i)) ∧
        pairCount (floatFilter 1 0) enc = kept (floatFilter 1 0) example1 ∧
        (∀ k (h : k < (keptIndices (floatFilter 1 0) example1).length),
          pairValue (floatFilter 1 0) enc k
            = elem 4 example1 (keptIndices (floatFilter 1 0) example1)[k] ∧
          pairIndex (floatFilter 1 0) enc k
            = toSigned 4 ((keptIndices (floatFilter 1 0) example1)[k] % 256 ^ 4) ∧
          ((floatFilter 1 0).IndexFits example1 →
            pairIndex (floatFilter 1 0) enc k
              = ((keptIndices (floatFilter 1 0) example1)[k] : Int))) ∧
        (∀ i, i ∈ keptIndices (floatFilter 1 0) example1 ↔
          i < total (floatFilter 1 0) example1 ∧
            ieeeAbsGt 8 23 1 0 (elem 4 example1 i) = true) ∧
        (keptIndices (floatFilter 1 0) example1).Pairwise (· < ·)) ∧
    (floatFilter 1 0).IndexFits example1 ∧
    keptIndices (floatFilter 1 0) example1 = [0, 3] ∧
    TryCompress (floatFilter 1 0) example1
      = .ok (some (ofPatterns 4 [0, 0x40A00000, 3, 0x40E00000])) :=
  ⟨⟨by decide, by decide, by decide,
    TryCompress_general_encoding (floatFilter 1 0) (by decide) example1
      (by decide) (by decide)⟩, by decide, by decide, by decide⟩

/-- C5 as stated fails.  `SparseFilter<int8_t, int8_t>` with clip 1 on 130
elements of which only the last, 9, is above the threshold: the one pair the
encoding holds is not `(129, 9)`; its index is the `int8_t` -127. -/
theorem TryCompress_general_encoding_counterexample :
    (int8Filter 1).EqualWidth ∧
    0 < kept (int8Filter 1) bytes130 ∧
    kept (int8Filter 1) bytes130 * 2 < total (int8Filter 1) bytes130 ∧
    keptIndices (int8Filter 1) bytes130 = [129] ∧
    TryCompress (int8Filter 1) bytes130 = .ok (some [129, 9]) ∧
    pairIndex (int8Filter 1) [129, 9] 0 = -127 ∧
    pairIndex (int8Filter 1) [129, 9] 0 ≠ 129 := by
  decide

/-- C6 (degenerate-case encoding).  For a buffer with at least one element and
`kept = 0`, `TryCompress` accepts and emits exactly one pair, whose index is 0
and whose value is the buffer's element 0 verbatim. -/
theorem TryCompress_degenerate_encoding (f : SparseFilter) (hf : f.EqualWidth) (b : Blob)
    (hne : 0 < total f b) (h0 : kept f b = 0) :
    ∃ enc, TryCompress f b = .ok (some enc) ∧
      enc = toBytes f.sizeof_index_type 0 ++ elem f.sizeof_data_type b 0 ∧
      pairCount f enc = 1 ∧
      pairIndex f enc 0 = 0 ∧
      pairValue f enc 0 = elem f.sizeof_data_type b 0 := by
  have hw : 0 < f.sizeof_index_type := hf.2.1
  have hdw : 0 < f.sizeof_data_type := by rw [hf.1]; exact hw
  have hel : (elem f.sizeof_data_type b 0).length = f.sizeof_index_type := by
    rw [← hf.1]
    exact elem_length ((lt_count_iff hdw).1 hne)
  have hpp : toBytes f.sizeof_index_type 0 ++ elem f.sizeof_data_type b 0
      = packPairs f.sizeof_index_type [(0, elem f.sizeof_data_type b 0)] := by
    simp [packPairs]
  have hv : ∀ q ∈ [((0 : Nat), elem f.sizeof_data_type b 0)], q.2.length = f.sizeof_index_type := by
    intro q hq
    simp only [List.mem_singleton] at hq
    subst hq
    exact hel
  obtain ⟨e1, e2⟩ := packPairs_elem f.sizeof_index_type _ hv 0 (by simp)
  refine ⟨_, ?_, rfl, ?_, ?_, ?_⟩
  · rw [TryCompress_eq f hf b, if_neg (by omega), encoding, encodedPairs, if_pos h0, hpp]
  · rw [pairCount, List.length_append, toBytes_length, hel, hf.1]
    have : (f.sizeof_index_type + f.sizeof_index_type) / f.sizeof_index_type = 2 := by
      rw [← Nat.two_mul, Nat.mul_div_cancel _ hw]
    rw [this]
  · rw [hpp, pairIndex, e1]
    exact toSigned_ofBytes_toBytes hw (Nat.pos_pow_of_pos _ (by decide))
  · rw [hpp, pairValue_eq f hf, e2]
    rfl

/-- The spec's Example 2 under C6: with clip 1.0, `[0.1, 0.1, 0.1]` is encoded
as the one pair `(0, 0.1)`. -/
theorem TryCompress_degenerate_encoding_witness :
    ((floatFilter 1 0).EqualWidth ∧ 0 < total (floatFilter 1 0) example2 ∧
      kept (floatFilter 1 0) example2 = 0 ∧
      ∃ enc, TryCompress (floatFilter 1 0) example2 = .ok (some enc) ∧
        enc = toBytes 4 0 ++ elem 4 example2 0 ∧
        pairCount (floatFilter 1 0) enc = 1 ∧
        pairIndex (floatFilter 1 0) enc 0 = 0 ∧
        pairValue (floatFilter 1 0) enc 0 = elem 4 example2 0) ∧
    TryCompress (floatFilter 1 0) example2 = .ok (some (ofPatterns 4 [0, 0x3DCCCCCD])) :=
  ⟨⟨by decide, by decide, by decide,
    TryCompress_degenerate_encoding (floatFilter 1 0) (by decide) example2
      (by decide) (by decide)⟩, by decide⟩

/-- C7 as the code has it (Decompress semantics).  For every encoding with an
even number of elements whose pair indices all lie in `[0, count)` and every
`size` that is a positive multiple of the value width (`count = size / width`),
`DeCompress` returns a buffer of exactly `count` elements in which every
position that is the index of no pair is zero and every position that is the
index of a pair holds the value of the last pair with that index. -/
theorem DeCompress_zero_or_last_pair (f : SparseFilter) (hf : f.EqualWidth) (enc : Blob)
    (size : Nat) (hpos : 0 < size) (hsize : size % f.sizeof_data_type = 0)
    (heven : enc.count f.sizeof_data_type % 2 = 0)
    (hidx : ∀ k, k < pairCount f enc →
      0 ≤ pairIndex f enc k ∧ pairIndex f enc k < ((size / f.sizeof_data_type : Nat) : Int)) :
    ∃ result, DeCompress f enc size = .ok result ∧ result.size = size ∧
      result.count f.sizeof_data_type = size / f.sizeof_data_type ∧
      ∀ j, j < size / f.sizeof_data_type →
        ((∀ k, k < pairCount f enc → pairIndex f enc k ≠ (j : Int)) →
          elem f.sizeof_data_type result j = zeroElem f.sizeof_data_type) ∧
        (∀ k, k < pairCount f enc → pairIndex f enc k = (j : Int) →
          (∀ k', k < k' → k' < pairCount f enc → pairIndex f enc k' ≠ (j : Int)) →
          elem f.sizeof_data_type result j = pairValue f enc k) := by
  obtain ⟨result, hres, hlen, hspec⟩ := DeCompress_spec f hf enc size hpos hsize heven hidx
  exact ⟨result, hres, hlen, by rw [Blob.count, hlen], hspec⟩

/-- An encoding whose first two pairs share index 1 under C7: the pairs
`(1, 5.0), (1, 7.0), (0, 0.1)` decode into three elements as `[0.1, 7.0, 0]`. -/
theorem DeCompress_zero_or_last_pair_witness :
    ((floatFilter 1 0).EqualWidth ∧ 0 < 12 ∧ 12 % (floatFilter 1 0).sizeof_data_type = 0 ∧
      examplePairs.count 4 % 2 = 0 ∧
      (∀ k, k < pairCount (floatFilter 1 0) examplePairs →
        0 ≤ pairIndex (floatFilter 1 0) examplePairs k ∧
        pairIndex (floatFilter 1 0) examplePairs k < ((12 / 4 : Nat) : Int)) ∧
      ∃ result, DeCompress (floatFilter 1 0) examplePairs 12 = .ok result ∧
        result.size = 12 ∧ result.count 4 = 12 / 4 ∧
        ∀ j : Nat, j < 12 / 4 →
          ((∀ k, k < pairCount (floatFilter 1 0) examplePairs →
              pairIndex (floatFilter 1 0) examplePairs k ≠ (j : Int)) →
            elem 4 result j = zeroElem 4) ∧
          (∀ k, k < pairCount (floatFilter 1 0) examplePairs →
              pairIndex (floatFilter 1 0) examplePairs k = (j : Int) →
              (∀ k', k < k' → k' < pairCount (floatFilter 1 0) examplePairs →
                pairIndex (floatFilter 1 0) examplePairs k' ≠ (j : Int)) →
            elem 4 result j = pairValue (floatFilter 1 0) examplePairs k)) ∧
    DeCompress (floatFilter 1 0) examplePairs 12
      = .ok (ofPatterns 4 [0x3DCCCCCD, 0x40E00000, 0]) :=
  ⟨⟨by decide, by decide, by decide, by decide, by decide,
    DeCompress_zero_or_last_pair (floatFilter 1 0) (by decide) examplePairs 12 (by decide)
      (by decide) (by decide) (by decide)⟩, by decide⟩

/-- C7 as stated fails.  The byte length 0 is a multiple of the width, and
the empty encoding, like an encoding of three bytes, has an even element count
(none) and no pair, yet `DeCompress` returns no buffer of 0 elements: it cannot
build a result of size 0. -/
theorem DeCompress_zero_or_last_pair_counterexample :
    (floatFilter 1 0).EqualWidth ∧ 0 % (floatFilter 1 0).sizeof_data_type = 0 ∧
    Blob.count [] (floatFilter 1 0).sizeof_data_type % 2 = 0 ∧
    pairCount (floatFilter 1 0) [] = 0 ∧
    Blob.count [0, 0, 0] (floatFilter 1 0).sizeof_data_type % 2 = 0 ∧
    pairCount (floatFilter 1 0) [0, 0, 0] = 0 ∧
    Blob.alloc 0 = .error .check ∧
    DeCompress (floatFilter 1 0) [] 0 = .error .check ∧
    DeCompress (floatFilter 1 0) [0, 0, 0] 0 = .error .check := by
  decide

/-! ## The batch framer: claims C8, C9, C10 -/

/-- C8 as the code has it (FilterIn framing of a compressed item).  For every
batch and every position `i` whose item `TryCompress` accepts and whose byte
length is below `2 ^ (8 * sizeof(index_type) - 1)`, slot `i` of the header
`FilterIn` emits, read as `index_type`, is the byte length of item `i`, a
non-negative value, equal to the element count times the value width when the
byte length is a multiple of the width; and output buffer `i + 1` is exactly
the encoding `TryCompress` returns. -/
theorem FilterIn_compressed_framing (f : SparseFilter) (hf : f.EqualWidth)
    (blobs : List Blob) (i : Nat) (hi : i < blobs.length)
    (hsize : blobs[i].size < 2 ^ (8 * f.sizeof_index_type - 1))
    (enc : Blob) (hacc : TryCompress f blobs[i] = .ok (some enc)) :
    ∃ hdr outs, FilterIn f blobs = .ok (hdr :: outs) ∧
      hdr.getInt f.sizeof_index_type i = .ok (blobs[i].size : Int) ∧
      (0 : Int) ≤ (blobs[i].size : Int) ∧
      (f.Aligned blobs[i] → blobs[i].size = total f blobs[i] * f.sizeof_data_type) ∧
      outs[i]? = some enc := by
  have hk : ¬ kept f blobs[i] * 2 ≥ total f blobs[i] := by
    intro h
    rw [TryCompress_eq f hf, if_pos h] at hacc
    cases hacc
  have henc : enc = encoding f blobs[i] := by
    rw [TryCompress_eq f hf, if_neg hk] at hacc
    cases hacc
    rfl
  refine ⟨headerOf f blobs, blobs.map (outputOf f),
    FilterIn_eq f hf blobs (ne_nil_of_lt_length hi), ?_, Int.natCast_nonneg _, ?_, ?_⟩
  · have hlen : blobs[i].length < 2 ^ (8 * f.sizeof_index_type - 1) := hsize
    rw [headerOf_getInt f blobs i hi, slotValue, if_neg hk,
      toSigned_ofBytes_toBytes hf.2.1 hlen]
    rfl
  · intro ha
    have := Nat.div_add_mod blobs[i].length f.sizeof_data_type
    rw [ha, Nat.add_zero, Nat.mul_comm] at this
    exact this.symm
  · rw [List.getElem?_map, List.getElem?_eq_getElem hi, Option.map_some', outputOf, if_neg hk,
      henc]

/-- The spec's Examples 1 to 3 as one batch under C8: item 0 is accepted, its
header slot is 20 and the buffer after the header is its encoding. -/
theorem FilterIn_compressed_framing_witness :
    ((floatFilter 1 0).EqualWidth ∧ example1.size < 2 ^ (8 * 4 - 1) ∧
      TryCompress (floatFilter 1 0) example1
        = .ok (some (ofPatterns 4 [0, 0x40A00000, 3, 0x40E00000])) ∧
      ∃ hdr outs, FilterIn (floatFilter 1 0) [example1, example3, example2] = .ok (hdr :: outs) ∧
        hdr.getInt 4 0 = .ok (example1.size : Int) ∧
        (0 : Int) ≤ (example1.size : Int) ∧
        ((floatFilter 1 0).Aligned example1 →
          example1.size = total (floatFilter 1 0) example1 * 4) ∧
        outs[0]? = some (ofPatterns 4 [0, 0x40A00000, 3, 0x40E00000])) ∧
    (floatFilter 1 0).Aligned example1 ∧
    FilterIn (floatFilter 1 0) [example1, example3, example2]
      = .ok [ofPatterns 4 [20, 0xFFFFFFFF, 12], ofPatterns 4 [0, 0x40A00000, 3, 0x40E00000],
          example3, ofPatterns 4 [0, 0x3DCCCCCD]] :=
  ⟨⟨by decide, by decide, by decide,
    FilterIn_compressed_framing (floatFilter 1 0) (by decide) [example1, example3, example2] 0
      (by decide) (by decide) _ (by decide)⟩, by decide, by decide⟩

/-- C8 as stated fails.  `SparseFilter<int8_t, int8_t>` with clip 1 on a batch
of one item of 130 zero elements: the item is accepted, and its byte length
130, stored in the `int8_t` header slot, reads back as -126. -/
theorem FilterIn_compressed_framing_counterexample :
    (int8Filter 1).EqualWidth ∧ (int8Filter 1).Aligned zeros130 ∧ zeros130.size = 130 ∧
    TryCompress (int8Filter 1) zeros130 = .ok (some [0, 0]) ∧
    FilterIn (int8Filter 1) [zeros130] = .ok [[130], [0, 0]] ∧
    Blob.getInt [130] (int8Filter 1).sizeof_index_type 0 = .ok (-126) := by
  decide

theorem decodeItem_ok_iff (f : SparseFilter) (hdr : Blob) (k : Nat) (buf out : Blob) :
    decodeItem f hdr k buf = .ok out ↔
      ∃ slot, hdr.getInt 4 k = .ok slot ∧ (slot < 0 → out = buf) ∧
        (0 ≤ slot → DeCompress f buf slot.toNat = .ok out) := by
  unfold decodeItem
  cases hget : hdr.getInt 4 k with
  | error e =>
    rw [bind_error]
    constructor
    · intro h; cases h
    · rintro ⟨slot, h, _⟩; cases h
  | ok slot =>
    rw [bind_ok]
    by_cases hs : slot ≥ 0
    · rw [if_pos hs]
      constructor
      · intro h
        exact ⟨slot, rfl, fun hneg => absurd hneg (by omega), fun _ => h⟩
      · rintro ⟨slot', h, _, h2⟩
        cases h
        exact h2 hs
    · rw [if_neg hs]
      constructor
      · intro h
        cases h
        exact ⟨slot, rfl, fun _ => rfl, fun hpos => absurd hpos hs⟩
      · rintro ⟨slot', h, h1, _⟩
        cases h
        rw [h1 (by omega)]

/-- C9 as the code has it (FilterOut per-item dispatch, four-byte
`index_type`).  For a header followed by `N` buffers, `FilterOut` returns
`outs` exactly when `outs` has `N` items and, for every `i`, header slot `i`
can be read and output item `i` is input buffer `i + 1` unchanged if the slot
is negative, and the result of `DeCompress` on input buffer `i + 1` with the
slot value as byte length if the slot is non-negative. -/
theorem FilterOut_dispatch (f : SparseFilter) (h4 : f.sizeof_index_type = 4)
    (hdr : Blob) (bufs outs : List Blob) :
    FilterOut f (hdr :: bufs) = .ok outs ↔
      outs.length = bufs.length ∧
      ∀ i (hi : i < bufs.length) (ho : i < outs.length),
        ∃ slot, hdr.getInt f.sizeof_index_type i = .ok slot ∧
          (slot < 0 → outs[i] = bufs[i]) ∧
          (0 ≤ slot → DeCompress f bufs[i] slot.toNat = .ok outs[i]) := by
  rw [FilterOut_eq, decodeItems_ok_iff, h4]
  constructor
  · rintro ⟨hl, hall⟩
    refine ⟨hl, fun i hi ho => ?_⟩
    have := hall i hi ho
    rw [Nat.zero_add] at this
    exact (decodeItem_ok_iff f hdr i _ _).1 this
  · rintro ⟨hl, hall⟩
    refine ⟨hl, fun i hi ho => ?_⟩
    rw [Nat.zero_add]
    exact (decodeItem_ok_iff f hdr i _ _).2 (hall i hi ho)

/-- A framed input under C9 with the slots 20, -1 and -2: the first buffer is
decompressed into 20 bytes, the other two are passed through. -/
theorem FilterOut_dispatch_witness :
    ((floatFilter 1 0).sizeof_index_type = 4 ∧
      (FilterOut (floatFilter 1 0)
          [ofPatterns 4 [20, 0xFFFFFFFF, 0xFFFFFFFE],
            ofPatterns 4 [0, 0x40A00000, 3, 0x40E00000], example3, example2]
          = .ok [ofPatterns 4 [0x40A00000, 0, 0, 0x40E00000, 0], example3, example2] ↔
        [ofPatterns 4 [0x40A00000, 0, 0, 0x40E00000, 0], example3, example2].length
            = [ofPatterns 4 [0, 0x40A00000, 3, 0x40E00000], example3, example2].length ∧
        ∀ i (hi : i < [ofPatterns 4 [0, 0x40A00000, 3, 0x40E00000], example3, example2].length)
            (ho : i < [ofPatterns 4 [0x40A00000, 0, 0, 0x40E00000, 0], example3,
              example2].length),
          ∃ slot, (ofPatterns 4 [20, 0xFFFFFFFF, 0xFFFFFFFE]).getInt 4 i = .ok slot ∧
            (slot < 0 → [ofPatterns 4 [0x40A00000, 0, 0, 0x40E00000, 0], example3, example2][i]
              = [ofPatterns 4 [0, 0x40A00000, 3, 0x40E00000], example3, example2][i]) ∧
            (0 ≤ slot → DeCompress (floatFilter 1 0)
                [ofPatterns 4 [0, 0x40A00000, 3, 0x40E00000], example3, example2][i] slot.toNat
              = .ok [ofPatterns 4 [0x40A00000, 0, 0, 0x40E00000, 0], example3, example2][i]))) ∧
    FilterOut (floatFilter 1 0)
        [ofPatterns 4 [20, 0xFFFFFFFF, 0xFFFFFFFE],
          ofPatterns 4 [0, 0x40A00000, 3, 0x40E00000], example3, example2]
      = .ok [ofPatterns 4 [0x40A00000, 0, 0, 0x40E00000, 0], example3, example2] :=
  ⟨⟨by decide, FilterOut_dispatch (floatFilter 1 0) (by decide) _ _ _⟩, by decide⟩

/-- C9 as stated fails.  The header slot -2 is not the sentinel -1, and
`FilterOut` passes the buffer through unchanged, which is the result of
`DeCompress` on that buffer for no byte length at all. -/
theorem FilterOut_dispatch_counterexample :
    (ofPatterns 4 [0xFFFFFFFE]).getInt (floatFilter 1 0).sizeof_index_type 0 = .ok (-2) ∧
    FilterOut (floatFilter 1 0) [ofPatterns 4 [0xFFFFFFFE], ofPatterns 4 [0, 0x3DCCCCCD]]
      = .ok [ofPatterns 4 [0, 0x3DCCCCCD]] ∧
    ∀ size, DeCompress (floatFilter 1 0) (ofPatterns 4 [0, 0x3DCCCCCD]) size
      ≠ .ok (ofPatterns 4 [0, 0x3DCCCCCD]) := by
  refine ⟨by decide, by decide, ?_⟩
  intro size h
  have hlen := DeCompress_length _ _ _ _ h
  have h8 : size = 8 := by rw [← hlen]; decide
  subst h8
  revert h
  decide

/-- C10 as the code has it (batch shape law).  `FilterIn` on `N ≥ 1` buffers
returns exactly `N + 1` buffers, the first being the header with `N` slots and
buffer `i + 1` being item `i` itself or its encoding; and when `FilterOut`
succeeds on `M + 1` buffers, `M ≥ 0`, it returns exactly `M` buffers, output
item `i` being input buffer `i + 1` itself or a decoding of it. -/
theorem batch_shape (f : SparseFilter) (hf : f.EqualWidth) :
    (∀ blobs : List Blob, 1 ≤ blobs.length →
      ∃ hdr outs, FilterIn f blobs = .ok (hdr :: outs) ∧
        (hdr :: outs).length = blobs.length + 1 ∧
        hdr.count f.sizeof_index_type = blobs.length ∧
        ∀ i (hi : i < blobs.length) (ho : i < outs.length),
          (TryCompress f blobs[i] = .ok none ∧ outs[i] = blobs[i]) ∨
          TryCompress f blobs[i] = .ok (some outs[i])) ∧
    (∀ framed outs : List Blob, FilterOut f framed = .ok outs →
      outs.length + 1 = framed.length ∧
      ∀ i (h1 : i + 1 < framed.length) (h2 : i < outs.length),
        outs[i] = framed[i + 1] ∨ ∃ size, DeCompress f framed[i + 1] size = .ok outs[i]) := by
  constructor
  · intro blobs hn
    refine ⟨headerOf f blobs, blobs.map (outputOf f),
      FilterIn_eq f hf blobs (ne_nil_of_lt_length hn), by simp, ?_, ?_⟩
    · rw [Blob.count, headerOf_length, Nat.mul_div_cancel _ hf.2.1]
    · intro i hi ho
      rw [List.getElem_map, TryCompress_eq f hf, outputOf]
      by_cases hk : kept f blobs[i] * 2 ≥ total f blobs[i]
      · left; simp [hk]
      · right; simp [hk]
  · intro framed outs h
    cases framed with
    | nil => rw [FilterOut] at h; cases h
    | cons hdr bufs =>
      rw [FilterOut_eq, decodeItems_ok_iff] at h
      obtain ⟨hl, hall⟩ := h
      refine ⟨by simp [hl], ?_⟩
      intro i h1 h2
      have hi : i < bufs.length := by simpa using h1
      obtain ⟨slot, _, hneg, hpos⟩ := (decodeItem_ok_iff f hdr _ _ _).1 (hall i hi h2)
      rw [List.getElem_cons_succ]
      by_cases hs : slot < 0
      · left; exact hneg hs
      · right; exact ⟨slot.toNat, hpos (by omega)⟩

/-- The spec's Examples 1 to 3 as one batch under C10: three buffers become
four and come back as three; a header alone comes back as the empty batch. -/
theorem batch_shape_witness :
    ((floatFilter 1 0).EqualWidth ∧
      (∀ blobs : List Blob, 1 ≤ blobs.length →
        ∃ hdr outs, FilterIn (floatFilter 1 0) blobs = .ok (hdr :: outs) ∧
          (hdr :: outs).length = blobs.length + 1 ∧
          hdr.count 4 = blobs.length ∧
          ∀ i (hi : i < blobs.length) (ho : i < outs.length),
            (TryCompress (floatFilter 1 0) blobs[i] = .ok none ∧ outs[i] = blobs[i]) ∨
            TryCompress (floatFilter 1 0) blobs[i] = .ok (some outs[i])) ∧
      (∀ framed outs : List Blob, FilterOut (floatFilter 1 0) framed = .ok outs →
        outs.length + 1 = framed.length ∧
        ∀ i (h1 : i + 1 < framed.length) (h2 : i < outs.length),
          outs[i] = framed[i + 1] ∨
            ∃ size, DeCompress (floatFilter 1 0) framed[i + 1] size = .ok outs[i])) ∧
    FilterIn (floatFilter 1 0) [example1, example3, example2]
      = .ok [ofPatterns 4 [20, 0xFFFFFFFF, 12], ofPatterns 4 [0, 0x40A00000, 3, 0x40E00000],
          example3, ofPatterns 4 [0, 0x3DCCCCCD]] ∧
    FilterOut (floatFilter 1 0)
        [ofPatterns 4 [20, 0xFFFFFFFF, 12], ofPatterns 4 [0, 0x40A00000, 3, 0x40E00000],
          example3, ofPatterns 4 [0, 0x3DCCCCCD]]
      = .ok [ofPatterns 4 [0x40A00000, 0, 0, 0x40E00000, 0], example3,
          ofPatterns 4 [0x3DCCCCCD, 0, 0]] ∧
    FilterOut (floatFilter 1 0) [ofPatterns 4 [20]] = .ok [] :=
  ⟨⟨by decide, batch_shape (floatFilter 1 0) (by decide)⟩, by decide, by decide, by decide⟩

/-- C10 as stated fails.  On the empty batch, `N = 0`, `FilterIn` returns no
buffers at all: the header would be a blob of size 0, which cannot be built. -/
theorem batch_shape_counterexample :
    (floatFilter 1 0).EqualWidth ∧
    Blob.alloc ((floatFilter 1 0).sizeof_index_type * ([] : List Blob).length)
      = .error .check ∧
    FilterIn (floatFilter 1 0) [] = .error .check ∧
    ∀ out, FilterIn (floatFilter 1 0) [] ≠ .ok out := by
  refine ⟨by decide, by decide, by decide, ?_⟩
  intro out h
  rw [FilterIn_nil] at h
  cases h

/-! ## The round trip through a four-byte header -/

/-- What comes back for a dense item: the item itself when it is rejected, and
otherwise a buffer of the same length that keeps the elements above the
threshold and is zero elsewhere, or keeps element 0 alone when no element is
above the threshold. -/
theorem roundTrip_spec (f : SparseFilter) (hf : f.EqualWidth) (b : Blob)
    (ha : f.Aligned b) (hfit : f.IndexFits b) :
    (kept f b * 2 ≥ total f b → roundTrip f b = b) ∧
    (kept f b * 2 < total f b →
      DeCompress f (encoding f b) b.length = .ok (roundTrip f b) ∧
      (roundTrip f b).length = b.length ∧
      (0 < kept f b → ∀ j, j < total f b →
        elem f.sizeof_data_type (roundTrip f b) j =
          if f.abs_gt_clip_value (elem f.sizeof_data_type b j) then elem f.sizeof_data_type b j
          else zeroElem f.sizeof_data_type) ∧
      (kept f b = 0 →
        elem f.sizeof_data_type (roundTrip f b) 0 = elem f.sizeof_data_type b 0 ∧
        ∀ j, 0 < j → j < total f b →
          elem f.sizeof_data_type (roundTrip f b) j = zeroElem f.sizeof_data_type)) := by
  constructor
  · intro hk
    rw [roundTrip, if_pos hk]
  · intro hk
    obtain ⟨result, hres, hlen, h1, h2⟩ := DeCompress_encoding_elem f hf b ha hfit hk
    have hrt : roundTrip f b = result := by
      rw [roundTrip, if_neg (by omega), hres]
    rw [hrt]
    exact ⟨hres, hlen, h1, h2⟩

theorem decodeItem_headerOf (f : SparseFilter) (hf : f.EqualWidth)
    (h4 : f.sizeof_index_type = 4) (blobs : List Blob) (i : Nat) (hi : i < blobs.length)
    (hd : f.Dense blobs[i]) :
    decodeItem f (headerOf f blobs) i (outputOf f blobs[i]) = .ok (roundTrip f blobs[i]) := by
  have hget := headerOf_getInt f blobs i hi
  rw [h4] at hget
  rw [decodeItem, hget, bind_ok]
  by_cases hk : kept f blobs[i] * 2 ≥ total f blobs[i]
  · have hs : toSigned 4 (ofBytes (toBytes 4 (slotValue f blobs[i]))) = -1 := by
      rw [slotValue, if_pos hk]
      exact toSigned_ofBytes_SIZE_MAX (by decide) (by decide)
    rw [hs, if_neg (by decide), outputOf, if_pos hk,
      (roundTrip_spec f hf _ hd.aligned hd.indexFits).1 hk]
  · have hlt : blobs[i].length < 2 ^ (8 * 4 - 1) := by
      have := hd.2
      rwa [h4] at this
    have hs : toSigned 4 (ofBytes (toBytes 4 (slotValue f blobs[i])))
        = (blobs[i].length : Int) := by
      rw [slotValue, if_neg hk]
      exact toSigned_ofBytes_toBytes (by decide) hlt
    rw [hs, if_pos (Int.natCast_nonneg _), Int.toNat_natCast, outputOf, if_neg hk]
    exact ((roundTrip_spec f hf _ hd.aligned hd.indexFits).2 (by omega)).1

theorem decodeItems_headerOf (f : SparseFilter) (hf : f.EqualWidth)
    (h4 : f.sizeof_index_type = 4) (blobs : List Blob) (hd : ∀ b ∈ blobs, f.Dense b) :
    decodeItems f (headerOf f blobs) 0 (blobs.map (outputOf f))
      = .ok (blobs.map (roundTrip f)) := by
  rw [decodeItems_ok_iff]
  refine ⟨by simp, ?_⟩
  intro j hj ho
  have hi : j < blobs.length := by simpa using hj
  rw [Nat.zero_add, List.getElem_map, List.getElem_map]
  exact decodeItem_headerOf f hf h4 blobs j hi (hd _ (List.getElem_mem hi))

/-- With a four-byte `index_type`, `FilterOut` after `FilterIn` returns, item
by item, what `roundTrip` describes. -/
theorem FilterOut_FilterIn_four_byte (f : SparseFilter) (hf : f.EqualWidth)
    (h4 : f.sizeof_index_type = 4) (blobs : List Blob) (hne : blobs ≠ [])
    (hd : ∀ b ∈ blobs, f.Dense b) :
    (FilterIn f blobs).bind (FilterOut f) = .ok (blobs.map (roundTrip f)) := by
  rw [FilterIn_eq f hf blobs hne, bind_ok, FilterOut_eq, decodeItems_headerOf f hf h4 blobs hd]

/-- A rejected item keeps its place and its header slot is -1, whatever the
width of `index_type`. -/
theorem FilterIn_passthrough (f : SparseFilter) (hf : f.EqualWidth) (blobs : List Blob)
    (i : Nat) (hi : i < blobs.length) (hk : kept f blobs[i] * 2 ≥ total f blobs[i]) :
    ∃ hdr outs, FilterIn f blobs = .ok (hdr :: outs) ∧
      hdr.getInt f.sizeof_index_type i = .ok (-1) ∧ outs[i]? = some blobs[i] := by
  refine ⟨headerOf f blobs, blobs.map (outputOf f),
    FilterIn_eq f hf blobs (ne_nil_of_lt_length hi), ?_, ?_⟩
  · rw [headerOf_getInt f blobs i hi, slotValue, if_pos hk,
      toSigned_ofBytes_SIZE_MAX hf.2.1 hf.2.2]
  · rw [List.getElem?_map, List.getElem?_eq_getElem hi, Option.map_some', outputOf, if_pos hk]

/-! ## The round trip through an eight-byte header: claims C1 and C3 -/

/-- C1 at a failing input.  `SparseFilter<double, int64_t>` with clip 1.0 on
the batch `[[2.0, 2.0], [0.0, 0.0, 0.0]]`: item 1 has `kept = 0` and
`total = 3`, so it is to come back as a buffer of its own 24 bytes; `FilterOut`
reads the upper half of the eight-byte slot 0 as the slot of item 1, finds -1
and returns the 16-byte encoding. -/
theorem FilterOut_FilterIn_eight_byte_item_lost :
    (doubleFilter 1 0).EqualWidth ∧
    (doubleFilter 1 0).Dense doubles0 ∧ (doubleFilter 1 0).Dense doubles1 ∧
    kept (doubleFilter 1 0) doubles1 = 0 ∧ total (doubleFilter 1 0) doubles1 = 3 ∧
    FilterIn (doubleFilter 1 0) [doubles0, doubles1]
      = .ok [ofPatterns 8 [0xFFFFFFFFFFFFFFFF, 24], doubles0, ofPatterns 8 [0, 0]] ∧
    (ofPatterns 8 [0xFFFFFFFFFFFFFFFF, 24]).getInt 8 1 = .ok 24 ∧
    (ofPatterns 8 [0xFFFFFFFFFFFFFFFF, 24]).getInt 4 1 = .ok (-1) ∧
    (FilterIn (doubleFilter 1 0) [doubles0, doubles1]).bind (FilterOut (doubleFilter 1 0))
      = .ok [doubles0, ofPatterns 8 [0, 0]] ∧
    (ofPatterns 8 [0, 0]).length = 16 ∧ doubles1.length = 24 ∧
    roundTrip (doubleFilter 1 0) doubles1 = doubles1 := by
  decide!

/-- C3 at a failing input.  `SparseFilter<double, int64_t>` with clip 1.0 on
the batch `[[2.0, 2.0], [0.0, 0.0, 0.0], [0.0, 5.0]]`: item 2 has
`kept * 2 ≥ total`, `FilterIn` emits it unchanged with the slot -1, and
`FilterOut` reads the lower half of slot 1 as the slot of item 2, finds 24 and
returns the decoding `[5.0, 0.0, 0.0]` of item 2. -/
theorem FilterOut_FilterIn_eight_byte_passthrough_changed :
    (doubleFilter 1 0).EqualWidth ∧
    kept (doubleFilter 1 0) doubles2 * 2 ≥ total (doubleFilter 1 0) doubles2 ∧
    FilterIn (doubleFilter 1 0) [doubles0, doubles1, doubles2]
      = .ok [ofPatterns 8 [0xFFFFFFFFFFFFFFFF, 24, 0xFFFFFFFFFFFFFFFF], doubles0,
          ofPatterns 8 [0, 0], doubles2] ∧
    (ofPatterns 8 [0xFFFFFFFFFFFFFFFF, 24, 0xFFFFFFFFFFFFFFFF]).getInt 8 2 = .ok (-1) ∧
    (ofPatterns 8 [0xFFFFFFFFFFFFFFFF, 24, 0xFFFFFFFFFFFFFFFF]).getInt 4 2 = .ok 24 ∧
    FilterOut (doubleFilter 1 0)
        [ofPatterns 8 [0xFFFFFFFFFFFFFFFF, 24, 0xFFFFFFFFFFFFFFFF], doubles0,
          ofPatterns 8 [0, 0], doubles2]
      = .ok [doubles0, ofPatterns 8 [0, 0], ofPatterns 8 [0x4014000000000000, 0, 0]] ∧
    ofPatterns 8 [0x4014000000000000, 0, 0] ≠ doubles2 := by
  decide!

/-! ## The shape of an accepted encoding: claims C11, C12, C17, C20 -/

theorem TryCompress_some_iff (f : SparseFilter) (hf : f.EqualWidth) (b enc : Blob) :
    TryCompress f b = .ok (some enc) ↔ kept f b * 2 < total f b ∧ enc = encoding f b := by
  rw [TryCompress_eq f hf b]
  by_cases hk : kept f b * 2 ≥ total f b
  · rw [if_pos hk]
    constructor
    · intro h; cases h
    · rintro ⟨h, _⟩; omega
  · rw [if_neg hk]
    constructor
    · intro h; cases h; exact ⟨by omega, rfl⟩
    · rintro ⟨_, rfl⟩; rfl

theorem encodedPairs_length (f : SparseFilter) (b : Blob) :
    (encodedPairs f b).length = if kept f b = 0 then 1 else kept f b := by
  unfold encodedPairs
  split
  · rfl
  · simp [kept]

theorem encoding_length (f : SparseFilter) (hf : f.EqualWidth) (b : Blob)
    (hk : kept f b * 2 < total f b) :
    (encoding f b).length = (encodedPairs f b).length * 2 * f.sizeof_index_type :=
  packPairs_length _ _ (fun q hq => by
    rw [← hf.1]; exact encodedPairs_value_length f hf b hk q hq)

theorem encoding_count (f : SparseFilter) (hf : f.EqualWidth) (b : Blob)
    (hk : kept f b * 2 < total f b) :
    (encoding f b).count f.sizeof_data_type = (encodedPairs f b).length * 2 := by
  rw [Blob.count, encoding_length f hf b hk, hf.1, Nat.mul_div_cancel _ hf.2.1]

theorem encoding_pairCount (f : SparseFilter) (hf : f.EqualWidth) (b : Blob)
    (hk : kept f b * 2 < total f b) :
    pairCount f (encoding f b) = (encodedPairs f b).length := by
  have := encoding_count f hf b hk
  rw [Blob.count] at this
  rw [pairCount, this]
  omega

/-- Pair `k` of an accepted dense buffer's encoding reads back as the `k`-th
emitted index. -/
theorem encoding_pairIndex (f : SparseFilter) (hf : f.EqualWidth) (b : Blob)
    (hfit : f.IndexFits b) (hk : kept f b * 2 < total f b) (k : Nat) (h : k < (encodedPairs f b).length) :
    pairIndex f (encoding f b) k = ((encodedPairs f b)[k].1 : Int) := by
  have hv : ∀ q ∈ encodedPairs f b, q.2.length = f.sizeof_index_type := fun q hq => by
    rw [← hf.1]; exact encodedPairs_value_length f hf b hk q hq
  rw [pairIndex, encoding, (packPairs_elem _ _ hv k h).1]
  exact toSigned_ofBytes_toBytes hf.2.1
    (lt_of_lt_of_le (encodedPairs_index_lt f b hk _ (List.getElem_mem h)) hfit)

theorem encodedPairs_pairwise (f : SparseFilter) (b : Blob) :
    ((encodedPairs f b).map Prod.fst).Pairwise (· < ·) := by
  unfold encodedPairs
  split
  · simp
  · rw [List.map_map]
    have : (Prod.fst ∘ fun i => (i, elem f.sizeof_data_type b i)) = id := rfl
    rw [this, List.map_id]
    exact keptIndices_pairwise f b

/-- C11 (compression reduces size when accepted).  When `TryCompress` accepts a
buffer: if `kept > 0` the encoding has `kept * 2 * width` bytes, strictly fewer
than the `total * width` bytes of the buffer's elements, and if `kept = 0` it
has `2 * width` bytes. -/
theorem accepted_encoding_size (f : SparseFilter) (hf : f.EqualWidth) (b enc : Blob)
    (hacc : TryCompress f b = .ok (some enc)) :
    (0 < kept f b →
      enc.size = kept f b * 2 * f.sizeof_data_type ∧
      enc.size < total f b * f.sizeof_data_type ∧
      total f b * f.sizeof_data_type ≤ b.size) ∧
    (kept f b = 0 → enc.size = 2 * f.sizeof_data_type) := by
  obtain ⟨hk, rfl⟩ := (TryCompress_some_iff f hf b enc).1 hacc
  have hlen := encoding_length f hf b hk
  rw [encodedPairs_length, ← hf.1] at hlen
  have hw : 0 < f.sizeof_data_type := by rw [hf.1]; exact hf.2.1
  constructor
  · intro h0
    rw [if_neg (by omega)] at hlen
    refine ⟨hlen, ?_, Nat.div_mul_le_self _ _⟩
    rw [Blob.size, hlen]
    exact Nat.mul_lt_mul_of_pos_right hk hw
  · intro h0
    rw [if_pos h0] at hlen
    rw [Blob.size, hlen]

/-- The spec's Examples 1 and 2 under C11: 16 bytes against 20, and 8 bytes. -/
theorem accepted_encoding_size_witness :
    (floatFilter 1 0).EqualWidth ∧
    TryCompress (floatFilter 1 0) example1
      = .ok (some (ofPatterns 4 [0, 0x40A00000, 3, 0x40E00000])) ∧
    ((0 < kept (floatFilter 1 0) example1 →
        (ofPatterns 4 [0, 0x40A00000, 3, 0x40E00000]).size
          = kept (floatFilter 1 0) example1 * 2 * 4 ∧
        (ofPatterns 4 [0, 0x40A00000, 3, 0x40E00000]).size
          < total (floatFilter 1 0) example1 * 4 ∧
        total (floatFilter 1 0) example1 * 4 ≤ example1.size) ∧
      (kept (floatFilter 1 0) example1 = 0 →
        (ofPatterns 4 [0, 0x40A00000, 3, 0x40E00000]).size = 2 * 4)) ∧
    (ofPatterns 4 [0, 0x40A00000, 3, 0x40E00000]).size = 16 ∧ example1.size = 20 ∧
    kept (floatFilter 1 0) example2 = 0 ∧
    TryCompress (floatFilter 1 0) example2 = .ok (some (ofPatterns 4 [0, 0x3DCCCCCD])) ∧
    (ofPatterns 4 [0, 0x3DCCCCCD]).size = 8 :=
  ⟨by decide, by decide,
    accepted_encoding_size (floatFilter 1 0) (by decide) example1 _ (by decide),
    by decide, by decide, by decide, by decide, by decide⟩

/-- C12 as the code has it (sparse encoding format invariant).  Every encoding
`TryCompress` emits contains at least one pair, has an element count that is a
positive multiple of 2 and a byte length that is a positive multiple of
`2 * width`, and lists its pairs in strictly ascending order of their source
positions; the indices as stored in `index_type` are strictly ascending when
all positions of the buffer fit `index_type`. -/
theorem encoding_format_invariant (f : SparseFilter) (hf : f.EqualWidth) (b : Blob)
    (enc : Blob) (hacc : TryCompress f b = .ok (some enc)) :
    1 ≤ pairCount f enc ∧
    enc.count f.sizeof_data_type = 2 * pairCount f enc ∧
    enc.size = pairCount f enc * (2 * f.sizeof_data_type) ∧
    enc = packPairs f.sizeof_index_type (encodedPairs f b) ∧
    ((encodedPairs f b).map Prod.fst).Pairwise (· < ·) ∧
    (f.IndexFits b →
      ∀ k k', k < k' → k' < pairCount f enc → pairIndex f enc k < pairIndex f enc k') := by
  obtain ⟨hk, rfl⟩ := (TryCompress_some_iff f hf b enc).1 hacc
  have hpc := encoding_pairCount f hf b hk
  have hlen := encodedPairs_length f b
  have hpw := encodedPairs_pairwise f b
  refine ⟨?_, ?_, ?_, rfl, hpw, ?_⟩
  · rw [hpc, hlen]; split <;> omega
  · rw [encoding_count f hf b hk, hpc]; omega
  · rw [Blob.size, encoding_length f hf b hk, hpc, hf.1]; ring
  · intro hfit k k' hlt hk'
    rw [hpc] at hk'
    have hk1 : k < (encodedPairs f b).length := by omega
    rw [encoding_pairIndex f hf b hfit hk k hk1, encoding_pairIndex f hf b hfit hk k' hk']
    have h1 : k < ((encodedPairs f b).map Prod.fst).length := by simpa using hk1
    have h2 : k' < ((encodedPairs f b).map Prod.fst).length := by simpa using hk'
    have := List.pairwise_iff_getElem.1 hpw k k' h1 h2 hlt
    simp only [List.getElem_map] at this
    exact_mod_cast this

/-- The spec's Example 1 under C12: two pairs, four elements, 16 bytes, the
indices 0 and 3. -/
theorem encoding_format_invariant_witness :
    (floatFilter 1 0).EqualWidth ∧
    TryCompress (floatFilter 1 0) example1
      = .ok (some (ofPatterns 4 [0, 0x40A00000, 3, 0x40E00000])) ∧
    (1 ≤ pairCount (floatFilter 1 0) (ofPatterns 4 [0, 0x40A00000, 3, 0x40E00000]) ∧
      (ofPatterns 4 [0, 0x40A00000, 3, 0x40E00000]).count 4
        = 2 * pairCount (floatFilter 1 0) (ofPatterns 4 [0, 0x40A00000, 3, 0x40E00000]) ∧
      (ofPatterns 4 [0, 0x40A00000, 3, 0x40E00000]).size
        = pairCount (floatFilter 1 0) (ofPatterns 4 [0, 0x40A00000, 3, 0x40E00000]) * (2 * 4) ∧
      ofPatterns 4 [0, 0x40A00000, 3, 0x40E00000]
        = packPairs 4 (encodedPairs (floatFilter 1 0) example1) ∧
      ((encodedPairs (floatFilter 1 0) example1).map Prod.fst).Pairwise (· < ·) ∧
      ((floatFilter 1 0).IndexFits example1 →
        ∀ k k', k < k' →
          k' < pairCount (floatFilter 1 0) (ofPatterns 4 [0, 0x40A00000, 3, 0x40E00000]) →
          pairIndex (floatFilter 1 0) (ofPatterns 4 [0, 0x40A00000, 3, 0x40E00000]) k
            < pairIndex (floatFilter 1 0) (ofPatterns 4 [0, 0x40A00000, 3, 0x40E00000]) k')) ∧
    (floatFilter 1 0).IndexFits example1 ∧
    pairCount (floatFilter 1 0) (ofPatterns 4 [0, 0x40A00000, 3, 0x40E00000]) = 2 ∧
    pairIndex (floatFilter 1 0) (ofPatterns 4 [0, 0x40A00000, 3, 0x40E00000]) 0 = 0 ∧
    pairIndex (floatFilter 1 0) (ofPatterns 4 [0, 0x40A00000, 3, 0x40E00000]) 1 = 3 :=
  ⟨by decide, by decide,
    encoding_format_invariant (floatFilter 1 0) (by decide) example1 _ (by decide),
    by decide, by decide, by decide, by decide⟩

/-- C12 as stated fails.  `SparseFilter<int8_t, int8_t>` with clip 1 on 130
elements with 9 at the positions 127 and 129: the encoding lists the two pairs
in the order of their positions, but the indices it stores are the `int8_t`s
127 and -127, which do not ascend. -/
theorem encoding_format_invariant_counterexample :
    (int8Filter 1).EqualWidth ∧
    TryCompress (int8Filter 1) bytes130two = .ok (some [127, 9, 129, 9]) ∧
    pairCount (int8Filter 1) [127, 9, 129, 9] = 2 ∧
    pairIndex (int8Filter 1) [127, 9, 129, 9] 0 = 127 ∧
    pairIndex (int8Filter 1) [127, 9, 129, 9] 1 = -127 ∧
    ¬ (pairIndex (int8Filter 1) [127, 9, 129, 9] 0
        < pairIndex (int8Filter 1) [127, 9, 129, 9] 1) := by
  decide

/-- C17 as the code has it (decoding a Compress output is in bounds).  For
every buffer `TryCompress` accepts, the encoding has an even element count;
when all positions of the buffer fit `index_type`, every index stored in the
encoding is in `[0, total)`; and when moreover the byte length is a multiple
of the width, `DeCompress` applied to the encoding with the buffer's byte
length returns a buffer: no access leaves the storage. -/
theorem decode_of_encoding_in_bounds (f : SparseFilter) (hf : f.EqualWidth) (b : Blob)
    (enc : Blob) (hacc : TryCompress f b = .ok (some enc)) :
    enc.count f.sizeof_data_type % 2 = 0 ∧
    (f.IndexFits b →
      (∀ k, k < pairCount f enc →
        0 ≤ pairIndex f enc k ∧ pairIndex f enc k < (total f b : Int)) ∧
      (f.Aligned b →
        (∃ result, DeCompress f enc b.size = .ok result) ∧
        DeCompress f enc b.size ≠ .error .outOfRange)) := by
  obtain ⟨hk, rfl⟩ := (TryCompress_some_iff f hf b enc).1 hacc
  refine ⟨?_, fun hfit => ⟨?_, fun ha => ?_⟩⟩
  · rw [encoding_count f hf b hk]; omega
  · intro k hlt
    rw [encoding_pairCount f hf b hk] at hlt
    rw [encoding_pairIndex f hf b hfit hk k hlt]
    exact ⟨Int.natCast_nonneg _,
      by exact_mod_cast encodedPairs_index_lt f b hk _ (List.getElem_mem hlt)⟩
  · obtain ⟨result, hres, _⟩ := DeCompress_encoding f hf b ha hfit hk
    refine ⟨⟨result, hres⟩, ?_⟩
    rw [Blob.size, hres]
    intro h; cases h

/-- The spec's Example 1 under C17: the stored indices 0 and 3 are below 5 and
the encoding decodes into 20 bytes. -/
theorem decode_of_encoding_in_bounds_witness :
    (floatFilter 1 0).EqualWidth ∧
    TryCompress (floatFilter 1 0) example1
      = .ok (some (ofPatterns 4 [0, 0x40A00000, 3, 0x40E00000])) ∧
    ((ofPatterns 4 [0, 0x40A00000, 3, 0x40E00000]).count 4 % 2 = 0 ∧
      ((floatFilter 1 0).IndexFits example1 →
        (∀ k, k < pairCount (floatFilter 1 0) (ofPatterns 4 [0, 0x40A00000, 3, 0x40E00000]) →
          0 ≤ pairIndex (floatFilter 1 0) (ofPatterns 4 [0, 0x40A00000, 3, 0x40E00000]) k ∧
          pairIndex (floatFilter 1 0) (ofPatterns 4 [0, 0x40A00000, 3, 0x40E00000]) k
            < (total (floatFilter 1 0) example1 : Int)) ∧
        ((floatFilter 1 0).Aligned example1 →
          (∃ result, DeCompress (floatFilter 1 0)
            (ofPatterns 4 [0, 0x40A00000, 3, 0x40E00000]) example1.size = .ok result) ∧
          DeCompress (floatFilter 1 0) (ofPatterns 4 [0, 0x40A00000, 3, 0x40E00000])
            example1.size ≠ .error .outOfRange))) ∧
    (floatFilter 1 0).IndexFits example1 ∧ (floatFilter 1 0).Aligned example1 ∧
    DeCompress (floatFilter 1 0) (ofPatterns 4 [0, 0x40A00000, 3, 0x40E00000]) 20
      = .ok (ofPatterns 4 [0x40A00000, 0, 0, 0x40E00000, 0]) :=
  ⟨by decide, by decide,
    decode_of_encoding_in_bounds (floatFilter 1 0) (by decide) example1 _ (by decide),
    by decide, by decide, by decide⟩

/-- C17 as stated fails.  `SparseFilter<int8_t, int8_t>` with clip 1 on 130
elements with 9 at the positions 127 and 129: the buffer is accepted, the
second stored index is the `int8_t` -127, outside `[0, 130)`, and `DeCompress`
with the byte length 130 makes its second write at that index. -/
theorem decode_of_encoding_in_bounds_counterexample :
    (int8Filter 1).EqualWidth ∧ (int8Filter 1).Aligned bytes130two ∧
    total (int8Filter 1) bytes130two = 130 ∧
    TryCompress (int8Filter 1) bytes130two = .ok (some [127, 9, 129, 9]) ∧
    pairIndex (int8Filter 1) [127, 9, 129, 9] 1 = -127 ∧
    ¬ (0 ≤ pairIndex (int8Filter 1) [127, 9, 129, 9] 1) ∧
    DeCompress (int8Filter 1) [127, 9, 129, 9] bytes130two.size = .error .outOfRange := by
  decide

/-- C20 (an accepted encoding is larger than the original only for a
single-element buffer).  When `TryCompress` accepts a buffer, the encoding's
element count is at most the buffer's element count exactly when `total ≥ 2`;
a buffer with `total = 1` is accepted exactly when `kept = 0`, and its
encoding has 2 elements, twice the original. -/
theorem encoding_larger_only_for_single (f : SparseFilter) (hf : f.EqualWidth) (b : Blob) :
    (∀ enc, TryCompress f b = .ok (some enc) →
      (enc.count f.sizeof_data_type ≤ total f b ↔ 2 ≤ total f b)) ∧
    (total f b = 1 →
      ((∃ enc, TryCompress f b = .ok (some enc)) ↔ kept f b = 0) ∧
      ∀ enc, TryCompress f b = .ok (some enc) →
        enc.count f.sizeof_data_type = 2 ∧ enc.count f.sizeof_data_type = 2 * total f b) := by
  constructor
  · intro enc hacc
    obtain ⟨hk, rfl⟩ := (TryCompress_some_iff f hf b enc).1 hacc
    rw [encoding_count f hf b hk, encodedPairs_length]
    split <;> omega
  · intro h1
    constructor
    · constructor
      · rintro ⟨enc, hacc⟩
        have := ((TryCompress_some_iff f hf b enc).1 hacc).1
        omega
      · intro h0
        exact ⟨encoding f b, (TryCompress_some_iff f hf b _).2 ⟨by omega, rfl⟩⟩
    · intro enc hacc
      obtain ⟨hk, rfl⟩ := (TryCompress_some_iff f hf b enc).1 hacc
      rw [encoding_count f hf b hk, encodedPairs_length, if_pos (by omega)]
      omega

/-- One `float` `[0.1]` at clip 1.0 under C20: it is accepted and its
encoding `(0, 0.1)` has two elements. -/
theorem encoding_larger_only_for_single_witness :
    (floatFilter 1 0).EqualWidth ∧
    ((∀ enc, TryCompress (floatFilter 1 0) (ofPatterns 4 [0x3DCCCCCD]) = .ok (some enc) →
        (enc.count 4 ≤ total (floatFilter 1 0) (ofPatterns 4 [0x3DCCCCCD]) ↔
          2 ≤ total (floatFilter 1 0) (ofPatterns 4 [0x3DCCCCCD]))) ∧
      (total (floatFilter 1 0) (ofPatterns 4 [0x3DCCCCCD]) = 1 →
        ((∃ enc, TryCompress (floatFilter 1 0) (ofPatterns 4 [0x3DCCCCCD]) = .ok (some enc)) ↔
          kept (floatFilter 1 0) (ofPatterns 4 [0x3DCCCCCD]) = 0) ∧
        ∀ enc, TryCompress (floatFilter 1 0) (ofPatterns 4 [0x3DCCCCCD]) = .ok (some enc) →
          enc.count 4 = 2 ∧
          enc.count 4 = 2 * total (floatFilter 1 0) (ofPatterns 4 [0x3DCCCCCD]))) ∧
    total (floatFilter 1 0) (ofPatterns 4 [0x3DCCCCCD]) = 1 ∧
    TryCompress (floatFilter 1 0) (ofPatterns 4 [0x3DCCCCCD])
      = .ok (some (ofPatterns 4 [0, 0x3DCCCCCD])) :=
  ⟨by decide, encoding_larger_only_for_single (floatFilter 1 0) (by decide) _, by decide,
    by decide⟩

/-! ## Faults: claims C13, C14, C15 -/

/-- C14 (FilterOut rejects an empty framed input).  On no buffers at all the
`CHECK(blobs.size() > 0)` fails and there is no batch; on a header followed by
any buffers the result is that of decoding the buffers one by one, so the
check has passed; a header alone yields the empty batch. -/
theorem FilterOut_empty_input (f : SparseFilter) :
    FilterOut f [] = .error .check ∧
    (∀ outs, FilterOut f [] ≠ .ok outs) ∧
    (∀ hdr bufs, FilterOut f (hdr :: bufs) = decodeItems f hdr 0 bufs) ∧
    (∀ hdr, FilterOut f [hdr] = .ok []) := by
  refine ⟨rfl, ?_, FilterOut_eq f, ?_⟩
  · intro outs h
    rw [FilterOut] at h
    cases h
  · intro hdr
    rw [FilterOut_eq]
    rfl

theorem Blob.set_fault {w i : Nat} {b : Blob} (v : List Byte) (h : ¬ i * w + w ≤ b.length) :
    b.set w i v = .error .outOfRange := by
  simp [Blob.set, h]

theorem Blob.setAt_fault {w : Nat} {b : Blob} (hw : 0 < w) (index : Int) (v : List Byte)
    (h : ¬ (0 ≤ index ∧ index < ((b.length / w : Nat) : Int))) :
    b.setAt w index v = .error .outOfRange := by
  cases index with
  | ofNat i =>
    apply Blob.set_fault
    intro hb
    apply h
    have hlt : i < b.length / w := (lt_count_iff hw).2 hb
    exact ⟨Int.natCast_nonneg _, Int.ofNat_lt.2 hlt⟩
  | negSucc i => rfl

/-- The decoding loop of `DeCompress` with an index out of range among the
pairs still to come: the write of the first such pair leaves the storage. -/
theorem decodeLoop_fault (w : Nat) (hw : 0 < w) (enc : Blob) (size : Nat) :
    ∀ n k0 (r : Blob), r.length = size → 2 * (k0 + n) ≤ enc.length / w →
      (∃ k, k0 ≤ k ∧ k < k0 + n ∧
        ¬ (0 ≤ toSigned w (ofBytes (elem w enc (2 * k))) ∧
          toSigned w (ofBytes (elem w enc (2 * k))) < ((size / w : Nat) : Int))) →
      forLoop (fun k (result : Blob) =>
          (enc.getInt w (2 * k)).bind fun index =>
          (enc.get w (2 * k + 1)).bind fun value =>
          result.setAt w index value) n k0 r = .error .outOfRange := by
  intro n
  induction n with
  | zero =>
    rintro k0 r _ _ ⟨k, h1, h2, _⟩
    omega
  | succ n ih =>
    rintro k0 r hr hlen ⟨k, h1, h2, hbad⟩
    have hb0 : (2 * k0) * w + w ≤ enc.length := (lt_count_iff hw).1 (by omega)
    have hb1 : (2 * k0 + 1) * w + w ≤ enc.length := (lt_count_iff hw).1 (by omega)
    rw [forLoop_succ, Blob.getInt, Blob.get_eq hb0, bind_ok, bind_ok, Blob.get_eq hb1, bind_ok]
    by_cases h0 : 0 ≤ toSigned w (ofBytes (elem w enc (2 * k0))) ∧
        toSigned w (ofBytes (elem w enc (2 * k0))) < ((size / w : Nat) : Int)
    · obtain ⟨hlo, hhi⟩ := h0
      obtain ⟨i, hi⟩ := Int.eq_ofNat_of_zero_le hlo
      rw [hi] at hhi
      have hi' : i < size / w := by exact_mod_cast hhi
      have hbi : i * w + w ≤ r.length := by rw [hr]; exact (lt_count_iff hw).1 hi'
      have hv : (elem w enc (2 * k0 + 1)).length = w := elem_length hb1
      have hset := Blob.set_eq (elem w enc (2 * k0 + 1)) hbi
      have hne : k ≠ k0 := by
        intro h
        subst h
        exact hbad ⟨hlo, by rw [hi]; exact_mod_cast hi'⟩
      rw [hi, Blob.setAt_natCast, hset, bind_ok]
      exact ih (k0 + 1) _ (by rw [Blob.set_length hv hset, hr]) (by omega)
        ⟨k, by omega, by omega, hbad⟩
    · rw [Blob.setAt_fault hw _ _ (by rw [hr]; exact h0)]
      rfl

/-- C13 as the code has it (no decode error on an out-of-range index).  For
every encoding with an even element count that contains a pair whose index
lies outside `[0, count)`, `count = size / width` for a positive multiple
`size` of the width, `DeCompress` does not fail with a decode error: none of
its `CHECK`s fails, it has no bounds check, and the run reaches the write of
the first such pair at an element position outside `[0, count)`, where the
behaviour of the source is undefined. -/
theorem DeCompress_index_out_of_range (f : SparseFilter) (hf : f.EqualWidth) (enc : Blob)
    (size : Nat) (hpos : 0 < size) (hsize : size % f.sizeof_data_type = 0)
    (heven : enc.count f.sizeof_data_type % 2 = 0)
    (hbad : ∃ k, k < pairCount f enc ∧
      ¬ (0 ≤ pairIndex f enc k ∧ pairIndex f enc k < ((size / f.sizeof_data_type : Nat) : Int))) :
    DeCompress f enc size ≠ .error .check ∧
    DeCompress f enc size = .error .outOfRange := by
  have key : DeCompress f enc size = .error .outOfRange := by
    obtain ⟨dw, w, p⟩ := f
    obtain ⟨h1, hw, _⟩ := hf
    simp only at h1 hw
    subst h1
    simp only [pairCount, pairIndex, Blob.count] at *
    obtain ⟨k, hk, hbadk⟩ := hbad
    have hz := zeroLoop_eq dw size (size / dw) 0 (by simpa using Nat.div_mul_le_self size dw)
    have hn : (enc.length / dw + 1) / 2 = enc.length / dw / 2 := by omega
    simp only [DeCompress, ne_eq, not_true_eq_false, if_false, hsize, Blob.alloc_pos hpos, hz,
      bind_ok, Blob.count, hn]
    exact decodeLoop_fault dw hw enc size (enc.length / dw / 2) 0 (List.replicate size 0)
      (by simp) (by omega) ⟨k, Nat.zero_le _, by omega, hbadk⟩
  refine ⟨?_, key⟩
  rw [key]; intro h; cases h

/-- The pairs `(0, 5.0), (-1, 7.0)` decoded into three elements under C13:
the index -1 is outside `[0, 3)`. -/
theorem DeCompress_index_out_of_range_witness :
    (floatFilter 1 0).EqualWidth ∧ 0 < 12 ∧ 12 % (floatFilter 1 0).sizeof_data_type = 0 ∧
    (ofPatterns 4 [0, 0x40A00000, 0xFFFFFFFF, 0x40E00000]).count 4 % 2 = 0 ∧
    pairIndex (floatFilter 1 0) (ofPatterns 4 [0, 0x40A00000, 0xFFFFFFFF, 0x40E00000]) 1 = -1 ∧
    (DeCompress (floatFilter 1 0) (ofPatterns 4 [0, 0x40A00000, 0xFFFFFFFF, 0x40E00000]) 12
        ≠ .error .check ∧
      DeCompress (floatFilter 1 0) (ofPatterns 4 [0, 0x40A00000, 0xFFFFFFFF, 0x40E00000]) 12
        = .error .outOfRange) :=
  ⟨by decide, by decide, by decide, by decide, by decide,
    DeCompress_index_out_of_range (floatFilter 1 0) (by decide) _ 12 (by decide) (by decide)
      (by decide) ⟨1, by decide, by decide⟩⟩

/-- C13 as stated fails.  The pair `(7, 5.0)` decoded into three elements: the
size is positive and a multiple of the width, both reads of the pair succeed,
no `CHECK` fails, and the write is made unchecked at index 7, a position
outside the three elements of the result. -/
theorem DeCompress_index_out_of_range_counterexample :
    (floatFilter 1 0).EqualWidth ∧ 12 % (floatFilter 1 0).sizeof_data_type = 0 ∧
    pairIndex (floatFilter 1 0) (ofPatterns 4 [7, 0x40A00000]) 0 = 7 ∧
    Blob.getInt (ofPatterns 4 [7, 0x40A00000]) 4 0 = .ok 7 ∧
    Blob.get (ofPatterns 4 [7, 0x40A00000]) 4 1 = .ok (toBytes 4 0x40A00000) ∧
    Blob.alloc 12 = .ok (List.replicate 12 0) ∧
    Blob.setAt (List.replicate 12 0) 4 7 (toBytes 4 0x40A00000) = .error .outOfRange ∧
    DeCompress (floatFilter 1 0) (ofPatterns 4 [7, 0x40A00000]) 12 ≠ .error .check ∧
    DeCompress (floatFilter 1 0) (ofPatterns 4 [7, 0x40A00000]) 12 = .error .outOfRange := by
  decide

theorem TryCompress_mismatch (f : SparseFilter) (hne : f.sizeof_data_type ≠ f.sizeof_index_type)
    (b : Blob) : TryCompress f b = .error .check := by
  rw [TryCompress, if_pos hne]

theorem DeCompress_mismatch (f : SparseFilter) (hne : f.sizeof_data_type ≠ f.sizeof_index_type)
    (enc : Blob) (size : Nat) : DeCompress f enc size = .error .check := by
  rw [DeCompress, if_pos hne]

theorem FilterIn_mismatch (f : SparseFilter) (hne : f.sizeof_data_type ≠ f.sizeof_index_type)
    (blobs : List Blob) (hb : blobs ≠ []) : FilterIn f blobs = .error .check := by
  cases blobs with
  | nil => exact absurd rfl hb
  | cons b bs =>
    rw [FilterIn, Blob.alloc]
    split
    · rfl
    · rw [bind_ok, List.length_cons, forLoop_succ]
      dsimp only
      rw [List.getElem?_cons_zero]
      dsimp only
      rw [TryCompress_mismatch f hne]
      rfl

/-- C15 as the code has it (width mismatch is a per-call check).  The
constructor produces an instance whatever the two widths are.  When they
differ, every `TryCompress` and every `DeCompress` fails its `CHECK`, so
`FilterIn` fails on every non-empty batch and `FilterOut` can only pass
buffers through; `FilterOut` on a header of negative slots runs to
completion. -/
theorem width_mismatch_checked_per_call (dw iw : Nat) (test : List Byte → Bool)
    (hne : dw ≠ iw) :
    ∃ f, SparseFilter.construct dw iw test = .ok f ∧
      f.sizeof_data_type = dw ∧ f.sizeof_index_type = iw ∧
      (∀ b, TryCompress f b = .error .check) ∧
      (∀ enc size, DeCompress f enc size = .error .check) ∧
      (∀ blobs, blobs ≠ [] → FilterIn f blobs = .error .check) ∧
      (∀ hdr bufs outs, FilterOut f (hdr :: bufs) = .ok outs → outs = bufs) ∧
      (∀ hdr bufs, (∀ i, i < bufs.length → ∃ slot, hdr.getInt 4 i = .ok slot ∧ slot < 0) →
        FilterOut f (hdr :: bufs) = .ok bufs) := by
  have hne' : (⟨dw, iw, test⟩ : SparseFilter).sizeof_data_type
      ≠ (⟨dw, iw, test⟩ : SparseFilter).sizeof_index_type := hne
  refine ⟨⟨dw, iw, test⟩, rfl, rfl, rfl, TryCompress_mismatch _ hne', DeCompress_mismatch _ hne',
    FilterIn_mismatch _ hne', ?_, ?_⟩
  · intro hdr bufs outs h
    rw [FilterOut_eq, decodeItems_ok_iff] at h
    obtain ⟨hl, hall⟩ := h
    apply List.ext_getElem hl
    intro i ho hi
    obtain ⟨slot, _, hneg, hpos⟩ := (decodeItem_ok_iff _ hdr _ _ _).1 (hall i hi ho)
    by_cases hs : slot < 0
    · exact hneg hs
    · have := hpos (by omega)
      rw [DeCompress_mismatch _ hne'] at this
      cases this
  · intro hdr bufs hall
    rw [FilterOut_eq, decodeItems_ok_iff]
    refine ⟨rfl, fun j hj _ => ?_⟩
    obtain ⟨slot, hget, hs⟩ := hall j hj
    rw [Nat.zero_add]
    exact (decodeItem_ok_iff _ hdr j _ _).2 ⟨slot, hget, fun _ => rfl, fun h => absurd h (by omega)⟩

/-- `SparseFilter<double, int32_t>` under C15. -/
theorem width_mismatch_checked_per_call_witness :
    (8 : Nat) ≠ 4 ∧
    ∃ f, SparseFilter.construct 8 4 (ieeeAbsGt 11 52 1 0) = .ok f ∧
      f.sizeof_data_type = 8 ∧ f.sizeof_index_type = 4 ∧
      (∀ b, TryCompress f b = .error .check) ∧
      (∀ enc size, DeCompress f enc size = .error .check) ∧
      (∀ blobs, blobs ≠ [] → FilterIn f blobs = .error .check) ∧
      (∀ hdr bufs outs, FilterOut f (hdr :: bufs) = .ok outs → outs = bufs) ∧
      (∀ hdr bufs, (∀ i, i < bufs.length → ∃ slot, hdr.getInt 4 i = .ok slot ∧ slot < 0) →
        FilterOut f (hdr :: bufs) = .ok bufs) :=
  ⟨by decide, width_mismatch_checked_per_call 8 4 (ieeeAbsGt 11 52 1 0) (by decide)⟩

/-- C15 as stated fails.  Constructing `SparseFilter<double, int32_t>` yields
an instance; `FilterOut` on a header with the slot -1 runs on it to
completion, and the mismatch shows only when `FilterIn` reaches `TryCompress`. -/
theorem width_mismatch_counterexample :
    SparseFilter.construct 8 4 (ieeeAbsGt 11 52 1 0) = .ok ⟨8, 4, ieeeAbsGt 11 52 1 0⟩ ∧
    (⟨8, 4, ieeeAbsGt 11 52 1 0⟩ : SparseFilter).sizeof_data_type
      ≠ (⟨8, 4, ieeeAbsGt 11 52 1 0⟩ : SparseFilter).sizeof_index_type ∧
    FilterOut ⟨8, 4, ieeeAbsGt 11 52 1 0⟩ [ofPatterns 4 [0xFFFFFFFF], doubles0]
      = .ok [doubles0] ∧
    TryCompress ⟨8, 4, ieeeAbsGt 11 52 1 0⟩ doubles0 = .error .check ∧
    FilterIn ⟨8, 4, ieeeAbsGt 11 52 1 0⟩ [doubles0] = .error .check :=
  ⟨rfl, by decide, by decide, by decide, by decide⟩

/-! ## The header as written and as read: claims C16 and C19 -/

/-- With a four-byte `index_type`, `FilterOut` reads for item `i` the slot
`FilterIn` stored for it. -/
theorem header_read_four_byte (f : SparseFilter) (h4 : f.sizeof_index_type = 4)
    (blobs : List Blob) (i : Nat) (hi : i < blobs.length) :
    (headerOf f blobs).getInt 4 i
      = .ok (toSigned 4 (ofBytes (toBytes 4 (slotValue f blobs[i])))) := by
  have := headerOf_getInt f blobs i hi
  rwa [h4] at this

/-- C16 at a failing input.  `SparseFilter<double, int64_t>` with clip 1.0 on
the batch `[[0.0, 0.0, 0.0], [0.0, 5.0]]`: `FilterIn` stores the eight-byte
slots 24 and -1; `FilterOut` reads with `As<int>` and finds 24 for item 0 and,
in the upper half of slot 0, 0 for item 1 instead of -1. -/
theorem header_read_eight_byte :
    FilterIn (doubleFilter 1 0) [doubles1, doubles2]
      = .ok [ofPatterns 8 [24, 0xFFFFFFFFFFFFFFFF], ofPatterns 8 [0, 0], doubles2] ∧
    headerOf (doubleFilter 1 0) [doubles1, doubles2] = ofPatterns 8 [24, 0xFFFFFFFFFFFFFFFF] ∧
    (ofPatterns 8 [24, 0xFFFFFFFFFFFFFFFF]).getInt (doubleFilter 1 0).sizeof_index_type 0
      = .ok 24 ∧
    (ofPatterns 8 [24, 0xFFFFFFFFFFFFFFFF]).getInt (doubleFilter 1 0).sizeof_index_type 1
      = .ok (-1) ∧
    (ofPatterns 8 [24, 0xFFFFFFFFFFFFFFFF]).getInt 4 0 = .ok 24 ∧
    (ofPatterns 8 [24, 0xFFFFFFFFFFFFFFFF]).getInt 4 1 = .ok 0 ∧
    decodeItem (doubleFilter 1 0) (ofPatterns 8 [24, 0xFFFFFFFFFFFFFFFF]) 1 doubles2
      = DeCompress (doubleFilter 1 0) doubles2 0 := by
  decide!

/-- Every slot `FilterIn` writes for a dense item is, read as `index_type`,
either -1 or the item's byte length, a positive multiple of the width. -/
theorem FilterIn_slot_nonzero (f : SparseFilter) (hf : f.EqualWidth) (blobs : List Blob)
    (i : Nat) (hi : i < blobs.length) (hd : f.Dense blobs[i]) :
    ∃ hdr outs slot, FilterIn f blobs = .ok (hdr :: outs) ∧
      hdr.getInt f.sizeof_index_type i = .ok slot ∧
      (slot = -1 ∨
        (slot = ((total f blobs[i] * f.sizeof_data_type : Nat) : Int) ∧ 0 < total f blobs[i])) := by
  by_cases hk : kept f blobs[i] * 2 ≥ total f blobs[i]
  · obtain ⟨hdr, outs, h1, h2, _⟩ := FilterIn_passthrough f hf blobs i hi hk
    exact ⟨hdr, outs, -1, h1, h2, Or.inl rfl⟩
  · refine ⟨headerOf f blobs, blobs.map (outputOf f), _,
      FilterIn_eq f hf blobs (ne_nil_of_lt_length hi),
      headerOf_getInt f blobs i hi, Or.inr ⟨?_, by omega⟩⟩
    rw [slotValue, if_neg hk, toSigned_ofBytes_toBytes hf.2.1 hd.2]
    have := Nat.div_add_mod blobs[i].length f.sizeof_data_type
    rw [hd.1, Nat.add_zero, Nat.mul_comm] at this
    rw [total, this]

/-- C19 at a failing input.  `SparseFilter<double, int64_t>` with clip 1.0 on
the batch `[[0.0, 0.0, 0.0], [2.0, 2.0]]`: the header holds the eight-byte
slots 24 and -1, neither of them zero, yet `FilterOut` reads 0 for item 1 in
the upper half of slot 0 and calls `DeCompress` on it with the byte length 0,
for which no result can be built, so no batch comes back. -/
theorem FilterOut_decompresses_into_zero_length :
    FilterIn (doubleFilter 1 0) [doubles1, doubles0]
      = .ok [ofPatterns 8 [24, 0xFFFFFFFFFFFFFFFF], ofPatterns 8 [0, 0], doubles0] ∧
    (ofPatterns 8 [24, 0xFFFFFFFFFFFFFFFF]).getInt 8 1 = .ok (-1) ∧
    (ofPatterns 8 [24, 0xFFFFFFFFFFFFFFFF]).getInt 4 1 = .ok 0 ∧
    decodeItem (doubleFilter 1 0) (ofPatterns 8 [24, 0xFFFFFFFFFFFFFFFF]) 1 doubles0
      = DeCompress (doubleFilter 1 0) doubles0 0 ∧
    DeCompress (doubleFilter 1 0) doubles0 0 = .error .check ∧
    FilterOut (doubleFilter 1 0)
        [ofPatterns 8 [24, 0xFFFFFFFFFFFFFFFF], ofPatterns 8 [0, 0], doubles0]
      = .error .check := by
  decide!

/-! ## A second pass: claim C18 -/

theorem kept_eq_zero_iff (f : SparseFilter) (b : Blob) :
    kept f b = 0 ↔
      ∀ i, i < total f b → f.abs_gt_clip_value (elem f.sizeof_data_type b i) = false := by
  rw [kept, List.length_eq_zero, keptIndices, List.filter_eq_nil_iff]
  simp

/-- Two buffers of one length whose elements agree on the test and, where the
test holds, in value, have the same emitted pairs when element 0 agrees too. -/
theorem encodedPairs_congr (f : SparseFilter) (b b' : Blob) (hlen : b'.length = b.length)
    (htest : ∀ i, i < total f b →
      f.abs_gt_clip_value (elem f.sizeof_data_type b' i)
        = f.abs_gt_clip_value (elem f.sizeof_data_type b i))
    (hval : ∀ i, i < total f b → f.abs_gt_clip_value (elem f.sizeof_data_type b i) = true →
      elem f.sizeof_data_type b' i = elem f.sizeof_data_type b i)
    (h0 : kept f b = 0 → elem f.sizeof_data_type b' 0 = elem f.sizeof_data_type b 0) :
    total f b' = total f b ∧ kept f b' = kept f b ∧ encodedPairs f b' = encodedPairs f b := by
  have htot : total f b' = total f b := by rw [total, total, hlen]
  have hki : keptIndices f b' = keptIndices f b := by
    rw [keptIndices, keptIndices, htot]
    apply List.filter_congr
    intro i hi
    exact htest i (List.mem_range.1 hi)
  have hk : kept f b' = kept f b := by rw [kept, kept, hki]
  refine ⟨htot, hk, ?_⟩
  rw [encodedPairs, encodedPairs, hk, hki]
  split
  · rename_i hz
    rw [h0 hz]
  · apply List.map_congr_left
    intro i hi
    obtain ⟨hlt, hp⟩ := (mem_keptIndices f b i).1 hi
    rw [hval i hlt hp]

/-- C18 as the code has it (the lossy projection is idempotent when zero is not
above the threshold and every index fits the index type).  For a buffer `b` of
whole elements, at most `2 ^ (8 * width - 1)` of them, that `TryCompress`
accepts, and a test that fails on the zero element, let `b'` be the decoding
of the encoding into `b`'s byte length; then `TryCompress` accepts `b'` with
the same encoding, and decoding that into the byte length of `b'` gives `b'`
again. -/
theorem compress_decompress_idempotent (f : SparseFilter) (hf : f.EqualWidth) (b : Blob)
    (ha : f.Aligned b) (hfit : f.IndexFits b)
    (hzero : f.abs_gt_clip_value (zeroElem f.sizeof_data_type) = false)
    (enc : Blob) (hacc : TryCompress f b = .ok (some enc)) :
    ∃ b', DeCompress f enc b.size = .ok b' ∧
      TryCompress f b' = .ok (some enc) ∧
      DeCompress f enc b'.size = .ok b' := by
  obtain ⟨hk, rfl⟩ := (TryCompress_some_iff f hf b enc).1 hacc
  obtain ⟨b', hres, hlen, h1, h2⟩ := DeCompress_encoding_elem f hf b ha hfit hk
  have hcong := encodedPairs_congr f b b' hlen
    (by
      intro i hi
      by_cases h0 : kept f b = 0
      · have hb := (kept_eq_zero_iff f b).1 h0 i hi
        rw [hb]
        cases i with
        | zero => rw [(h2 h0).1]; exact hb
        | succ i => rw [(h2 h0).2 _ (by omega) hi]; exact hzero
      · rw [h1 (by omega) i hi]
        by_cases hp : f.abs_gt_clip_value (elem f.sizeof_data_type b i) = true
        · rw [if_pos hp]
        · rw [if_neg hp, hzero]
          simpa using hp)
    (by
      intro i hi hp
      have h0 : kept f b ≠ 0 := by
        intro h
        rw [(kept_eq_zero_iff f b).1 h i hi] at hp
        cases hp
      rw [h1 (by omega) i hi, if_pos hp])
    (fun h0 => (h2 h0).1)
  obtain ⟨htot, hkept, hpairs⟩ := hcong
  have henc : encoding f b' = encoding f b := by rw [encoding, encoding, hpairs]
  refine ⟨b', hres, ?_, ?_⟩
  · exact (TryCompress_some_iff f hf b' _).2 ⟨by rw [hkept, htot]; exact hk, henc.symm⟩
  · rw [Blob.size, hlen]
    exact hres

/-- The spec's Example 1 under C18: `[5.0, 0.01, 0.02, 7.0, 0.01]` goes to
`[5.0, 0, 0, 7.0, 0]`, which is accepted with the same encoding and decodes to
itself. -/
theorem compress_decompress_idempotent_witness :
    (floatFilter 1 0).EqualWidth ∧ (floatFilter 1 0).Aligned example1 ∧
    (floatFilter 1 0).IndexFits example1 ∧
    ieeeAbsGt 8 23 1 0 (zeroElem 4) = false ∧
    TryCompress (floatFilter 1 0) example1
      = .ok (some (ofPatterns 4 [0, 0x40A00000, 3, 0x40E00000])) ∧
    (∃ b', DeCompress (floatFilter 1 0) (ofPatterns 4 [0, 0x40A00000, 3, 0x40E00000])
        example1.size = .ok b' ∧
      TryCompress (floatFilter 1 0) b'
        = .ok (some (ofPatterns 4 [0, 0x40A00000, 3, 0x40E00000])) ∧
      DeCompress (floatFilter 1 0) (ofPatterns 4 [0, 0x40A00000, 3, 0x40E00000]) b'.size
        = .ok b') ∧
    TryCompress (floatFilter 1 0) (ofPatterns 4 [0x40A00000, 0, 0, 0x40E00000, 0])
      = .ok (some (ofPatterns 4 [0, 0x40A00000, 3, 0x40E00000])) :=
  ⟨by decide, by decide, by decide, by decide, by decide,
    compress_decompress_idempotent (floatFilter 1 0) (by decide) example1 (by decide)
      (by decide) (by decide) _ (by decide), by decide⟩

/-- C18 as stated fails in two ways.  With clip -1.0 the `float`s
`[NaN, NaN, NaN, 1.0]` have `kept = 1` and are accepted with the encoding
`(3, 1.0)`, which decodes to `[0, 0, 0, 1.0]`; there every element is above
the threshold, `kept = 4`, and `TryCompress` rejects.  With one-byte elements
and indices and clip 1, the 130 elements `[0, ..., 0, 9]` are accepted with the
encoding `(129, 9)`, whose index reads back as -127, so decoding it into 130
bytes writes out of range and gives no `b'`. -/
theorem compress_decompress_idempotent_counterexample :
    ((floatFilter (-1) 0).EqualWidth ∧ (floatFilter (-1) 0).Aligned nans ∧
      (floatFilter (-1) 0).IndexFits nans ∧
      (floatFilter (-1) 0).abs_gt_clip_value (zeroElem 4) = true ∧
      kept (floatFilter (-1) 0) nans = 1 ∧
      TryCompress (floatFilter (-1) 0) nans = .ok (some (ofPatterns 4 [3, 0x3F800000])) ∧
      DeCompress (floatFilter (-1) 0) (ofPatterns 4 [3, 0x3F800000]) nans.size
        = .ok (ofPatterns 4 [0, 0, 0, 0x3F800000]) ∧
      kept (floatFilter (-1) 0) (ofPatterns 4 [0, 0, 0, 0x3F800000]) = 4 ∧
      TryCompress (floatFilter (-1) 0) (ofPatterns 4 [0, 0, 0, 0x3F800000]) = .ok none) ∧
    ((int8Filter 1).EqualWidth ∧ (int8Filter 1).Aligned bytes130 ∧
      ¬ (int8Filter 1).IndexFits bytes130 ∧
      (int8Filter 1).abs_gt_clip_value (zeroElem 1) = false ∧
      TryCompress (int8Filter 1) bytes130 = .ok (some [129, 9]) ∧
      pairIndex (int8Filter 1) [129, 9] 0 = -127 ∧
      DeCompress (int8Filter 1) [129, 9] bytes130.size = .error .outOfRange) := by
  decide

end multiverso
